import Mathlib

/-!
# Node registry (`nodes/node_registry.go`)

A shallow embedding of the kind-name registry and a verification of its contract.

Modelling conventions.
* A Go `string` is a sequence of bytes: `GoString` is a list of naturals, each byte a
  natural below 256.  Comparison of strings is the lexicographic order on these lists.
* A Go `error` is `none` (nil) or `some text`, the text being what `Error()` returns.
* A pointer that the code tests against nil (`*Credentials`, the `*NodeRegistryEntry`
  returned by `Kind`) is an `Option`.  Entries are never mutated after their creation,
  so a stored pointer is represented by the entry it points to.
* The built-in map is an association list with pairwise distinct keys (`AList`).  The
  order in which `range` visits the keys is not fixed by the language; the loop over the
  map is therefore written over an explicit visiting order.
* `Node` is the interface type produced by initializers; a value of that interface is
  `none` (the nil interface) or `some n`.
* An `Initializer` is a total function of no argument: calling it yields a node and does
  not touch the registry.  A nil function value is not modelled.  Where the state that a
  call of an initializer leaves is the question, the initializer is a closure run in the
  state of the program (`ClosureEntry`, `NewNodeOfKindIn`).
* A registry is a value built by `NewNodeRegistry`: the receiver is not nil and its map is
  allocated.  `addEntry` is the only writer of the map and stores the entry it iterates
  over, so the map holds no nil pointer.
* The verb `%q` is formatted by `strconv.Quote`.  Its Unicode tables for runes above
  Latin-1 are not part of the repository: they are the parameter `tbl` of every function
  that formats a message.
-/

namespace Nodes

/-! ## Strings and the pieces of the standard library the registry calls -/

/-- Go strings: byte sequences. -/
abbrev GoString := List Nat

/-- The bytes of an ASCII literal. -/
def ascii (s : String) : GoString := s.data.map Char.toNat

/-- The constant `utf8.RuneError`. -/
def RuneError : Nat := 0xFFFD

/-- The table `first` of package `unicode/utf8`: information about the first byte of a
UTF-8 sequence (`as = 0xF0`, `xx = 0xF1`, `s1 = 0x02`, ..., `s7 = 0x44`). -/
def first (b : Nat) : Nat :=
  if b < 0x80 then 0xF0
  else if b < 0xC2 then 0xF1
  else if b < 0xE0 then 0x02
  else if b = 0xE0 then 0x13
  else if b < 0xED then 0x03
  else if b = 0xED then 0x23
  else if b < 0xF0 then 0x03
  else if b = 0xF0 then 0x34
  else if b < 0xF4 then 0x04
  else if b = 0xF4 then 0x44
  else 0xF1

/-- The table `acceptRanges` of package `unicode/utf8`: the `(lo, hi)` range accepted for
the second byte of a sequence. -/
def acceptRanges (i : Nat) : Nat × Nat :=
  match i with
  | 0 => (0x80, 0xBF)
  | 1 => (0xA0, 0xBF)
  | 2 => (0x80, 0x9F)
  | 3 => (0x90, 0xBF)
  | 4 => (0x80, 0x8F)
  | _ => (0, 0)

/-- The function `utf8.DecodeRuneInString`: the first rune of `s` and its width in bytes;
`(RuneError, 1)` on an invalid or truncated encoding, `(RuneError, 0)` on the empty string. -/
def DecodeRuneInString (s : GoString) : Nat × Nat :=
  match s with
  | [] => (RuneError, 0)
  | s0 :: t =>
    let x := first s0
    if 0xF0 ≤ x then
      (if x % 2 = 1 then RuneError else s0, 1)
    else
      let sz := x % 8
      let accept := acceptRanges (x / 16)
      if s.length < sz then (RuneError, 1)
      else
        match t with
        | [] => (RuneError, 1)
        | s1 :: t1 =>
          if s1 < accept.1 ∨ accept.2 < s1 then (RuneError, 1)
          else if sz ≤ 2 then ((s0 % 32) * 64 + s1 % 64, 2)
          else
            match t1 with
            | [] => (RuneError, 1)
            | s2 :: t2 =>
              if s2 < 0x80 ∨ 0xBF < s2 then (RuneError, 1)
              else if sz ≤ 3 then ((s0 % 16) * 4096 + (s1 % 64) * 64 + s2 % 64, 3)
              else
                match t2 with
                | [] => (RuneError, 1)
                | s3 :: _ =>
                  if s3 < 0x80 ∨ 0xBF < s3 then (RuneError, 1)
                  else ((s0 % 8) * 262144 + (s1 % 64) * 4096 + (s2 % 64) * 64 + s3 % 64, 4)

/-- The function `utf8.AppendRune` on a valid rune: its UTF-8 encoding. -/
def AppendRune (r : Nat) : GoString :=
  if r < 0x80 then [r]
  else if r < 0x800 then [0xC0 + r / 64, 0x80 + r % 64]
  else if r < 0x10000 then [0xE0 + r / 4096, 0x80 + (r / 64) % 64, 0x80 + r % 64]
  else [0xF0 + r / 262144, 0x80 + (r / 4096) % 64, 0x80 + (r / 64) % 64, 0x80 + r % 64]

/-- The function `strconv.IsPrint`.  Latin-1 is decided by the fast path of the library;
above it the library consults its Unicode tables, which are the parameter `tbl`. -/
def IsPrint (tbl : Nat → Bool) (r : Nat) : Bool :=
  if r ≤ 0xFF then
    if 0x20 ≤ r ∧ r ≤ 0x7E then true
    else if 0xA1 ≤ r ∧ r ≤ 0xFF then r != 0xAD
    else false
  else tbl r

/-- The digit string `lowerhex` of package `strconv`, indexed. -/
def lowerhex (i : Nat) : Nat := (ascii "0123456789abcdef").getD i 0

/-- The hexadecimal digits written by the loop `for s := hi; s >= 0; s -= 4` of
`appendEscapedRune`, with `n` digits left to write. -/
def hexDigits (r : Nat) : Nat → GoString
  | 0 => []
  | n + 1 => lowerhex ((r / 16 ^ n) % 16) :: hexDigits r n

/-- The function `strconv.appendEscapedRune` as `Quote` calls it (quote character `"`,
neither ASCII-only nor graphic-only): the text appended for the rune `r`. -/
def appendEscapedRune (tbl : Nat → Bool) (r : Nat) : GoString :=
  if r = 0x22 ∨ r = 0x5C then [0x5C, r]
  else if IsPrint tbl r then AppendRune r
  else if r = 0x07 then ascii "\\a"
  else if r = 0x08 then ascii "\\b"
  else if r = 0x0C then ascii "\\f"
  else if r = 0x0A then ascii "\\n"
  else if r = 0x0D then ascii "\\r"
  else if r = 0x09 then ascii "\\t"
  else if r = 0x0B then ascii "\\v"
  else if r < 0x20 ∨ r = 0x7F then ascii "\\x" ++ [lowerhex (r / 16), lowerhex (r % 16)]
  else if 0x10FFFF < r ∨ (0xD800 ≤ r ∧ r ≤ 0xDFFF) then ascii "\\u" ++ hexDigits 0xFFFD 4
  else if r < 0x10000 then ascii "\\u" ++ hexDigits r 4
  else ascii "\\U" ++ hexDigits r 8

/-- The loop of `strconv.appendQuotedWith`: the escaped text of `s`, rune by rune.  A byte
below `utf8.RuneSelf` is a rune of width 1, the others are decoded; an invalid byte is
written as `\x` and two digits.  Each round consumes at least one byte, so `s.length`
rounds of `fuel` always suffice. -/
def quoteLoop (tbl : Nat → Bool) : Nat → GoString → GoString
  | 0, _ => []
  | _, [] => []
  | fuel + 1, s0 :: t =>
    let d := if 0x80 ≤ s0 then DecodeRuneInString (s0 :: t) else (s0, 1)
    if d.2 = 1 ∧ d.1 = RuneError then
      ascii "\\x" ++ [lowerhex (s0 / 16), lowerhex (s0 % 16)]
        ++ quoteLoop tbl fuel t
    else
      appendEscapedRune tbl d.1 ++ quoteLoop tbl fuel ((s0 :: t).drop d.2)

/-- The escaped text that `%q` puts between the two quote characters. -/
def escape (tbl : Nat → Bool) (s : GoString) : GoString := quoteLoop tbl s.length s

/-- The function `strconv.Quote`, which formats the verb `%q` of package `fmt`: a
double-quoted Go string literal for `s`. -/
def Quote (tbl : Nat → Bool) (s : GoString) : GoString :=
  [0x22] ++ escape tbl s ++ [0x22]

/-- The function `strings.Join`. -/
def Join (elems : List GoString) (sep : GoString) : GoString :=
  match elems with
  | [] => []
  | [a] => a
  | a :: rest => a ++ (rest.map (fun s => sep ++ s)).flatten

/-- The function `sort.Strings`: the strings in increasing order.  The library sorts in
place; on a list its result is the ascending rearrangement, computed here by insertion. -/
def sortStrings (l : List GoString) : List GoString := l.insertionSort (· ≤ ·)

/-! ## The data model -/

/-- The struct `Credentials`. -/
structure Credentials where
  username : GoString
  password : GoString
deriving DecidableEq, Repr

/-- The type `Initializer`, `func() Node`. -/
abbrev Initializer (Node : Type) := Unit → Option Node

/-- The struct `NodeRegistryEntry`. -/
structure NodeRegistryEntry (Node : Type) where
  nodeKindNames : List GoString
  initFunction : Initializer Node
  credentials : Option Credentials

/-- The struct `NodeRegistry`: the index from kind name to entry. -/
structure NodeRegistry (Node : Type) where
  nodeIndex : AList (fun _ : GoString => NodeRegistryEntry Node)

variable {Node : Type}

/-- The keys of the index, `k` such that `_, ok := r.nodeIndex[k]` gives `ok`. -/
def NodeRegistry.keys (r : NodeRegistry Node) : List GoString := r.nodeIndex.keys

/-! ## The operations -/

/-- The constructor `NewNodeRegistry`. -/
def NewNodeRegistry : NodeRegistry Node := ⟨∅⟩

/-- The constructor `newRegistryEntry`. -/
def newRegistryEntry (nodeKindNames : List GoString) (initFunction : Initializer Node)
    (credentials : Option Credentials) : NodeRegistryEntry Node :=
  { nodeKindNames := nodeKindNames, initFunction := initFunction, credentials := credentials }

/-- The error of `addEntry`,
`fmt.Errorf("node kind %q already registered in Node Registry", name)`. -/
def errAlreadyRegistered (tbl : Nat → Bool) (name : GoString) : GoString :=
  ascii "node kind " ++ Quote tbl name ++ ascii " already registered in Node Registry"

/-- The loop of `addEntry` over the names still to visit: the registry it leaves and the
error it returns. -/
def addEntryLoop (tbl : Nat → Bool) (entry : NodeRegistryEntry Node) :
    List GoString → NodeRegistry Node → NodeRegistry Node × Option GoString
  | [], r => (r, none)
  | name :: rest, r =>
    if (r.nodeIndex.lookup name).isSome then
      (r, some (errAlreadyRegistered tbl name))
    else
      addEntryLoop tbl entry rest ⟨r.nodeIndex.insert name entry⟩

/-- The method `addEntry`. -/
def addEntry (tbl : Nat → Bool) (r : NodeRegistry Node) (entry : NodeRegistryEntry Node) :
    NodeRegistry Node × Option GoString :=
  addEntryLoop tbl entry entry.nodeKindNames r

/-- The method `Register`: the registry after the call and the returned error. -/
def Register (tbl : Nat → Bool) (r : NodeRegistry Node) (names : List GoString)
    (initf : Initializer Node) (credentials : Option Credentials) :
    NodeRegistry Node × Option GoString :=
  let newEntry := newRegistryEntry names initf credentials
  addEntry tbl r newEntry

/-- The loop `for k := range r.nodeIndex { result = append(result, k) }` of
`GetRegisteredNodeKindNames`, the keys being visited in the sequence `order`. -/
def collectKeys (order : List GoString) : List GoString :=
  order.foldl (fun result k => result ++ [k]) []

/-- The method `GetRegisteredNodeKindNames` when `range` visits the keys in `order`. -/
def GetRegisteredNodeKindNamesVia (order : List GoString) : List GoString :=
  sortStrings (collectKeys order)

/-- The method `GetRegisteredNodeKindNames`. -/
def GetRegisteredNodeKindNames (r : NodeRegistry Node) : List GoString :=
  GetRegisteredNodeKindNamesVia r.keys

/-- The error of `NewNodeOfKind`,
`fmt.Errorf("kind %q is not supported. Supported kinds are %q", nodeKindName, registeredKinds)`. -/
def errNotSupported (tbl : Nat → Bool) (nodeKindName registeredKinds : GoString) : GoString :=
  ascii "kind " ++ Quote tbl nodeKindName ++ ascii " is not supported. Supported kinds are "
    ++ Quote tbl registeredKinds

/-- The method `NewNodeOfKind`: the returned node and error. -/
def NewNodeOfKind (tbl : Nat → Bool) (r : NodeRegistry Node) (nodeKindName : GoString) :
    Option Node × Option GoString :=
  match r.nodeIndex.lookup nodeKindName with
  | none =>
    let registeredKinds := Join (GetRegisteredNodeKindNames r) (ascii ", ")
    (none, some (errNotSupported tbl nodeKindName registeredKinds))
  | some nodeKindEntry => (nodeKindEntry.initFunction (), none)

/-- The method `Kind`. -/
def Kind (r : NodeRegistry Node) (kind : GoString) : Option (NodeRegistryEntry Node) :=
  r.nodeIndex.lookup kind

/-- The method `NodeRegistryEntry.Credentials`, on a possibly nil receiver. -/
def NodeRegistryEntry.Credentials (e : Option (NodeRegistryEntry Node)) : Option Credentials :=
  match e with
  | none => none
  | some e => e.credentials

/-- The constructor `NewCredentials`. -/
def NewCredentials (username password : GoString) : Option Credentials :=
  some { username := username, password := password }

/-- The method `Credentials.GetUsername`, on a possibly nil receiver. -/
def GetUsername (c : Option Credentials) : GoString :=
  match c with
  | none => []
  | some c => c.username

/-- The method `Credentials.GetPassword`, on a possibly nil receiver. -/
def GetPassword (c : Option Credentials) : GoString :=
  match c with
  | none => []
  | some c => c.password

/-- The method `Credentials.Slice`, on a possibly nil receiver. -/
def Slice (c : Option Credentials) : List GoString :=
  match c with
  | none => []
  | some c => [GetUsername (some c), GetPassword (some c)]

/-! ## Vocabulary of the contract -/

/-- Position `i` of `names` conflicts: the name there is one of `keys` (a key of the index
before the call) or occurs at an earlier position of `names`. -/
def ConflictAt (keys names : List GoString) (i : Nat) : Prop :=
  ∃ n, names[i]? = some n ∧ (n ∈ keys ∨ n ∈ names.take i)

/-- Position `i` is the first conflicting position of `names`. -/
def FirstConflictAt (keys names : List GoString) (i : Nat) : Prop :=
  ConflictAt keys names i ∧ ∀ j, j < i → ¬ ConflictAt keys names j

/-- The index after the names `l` have been stored, each mapped to `entry`. -/
def insertAll (entry : NodeRegistryEntry Node) (l : List GoString)
    (m : AList (fun _ : GoString => NodeRegistryEntry Node)) :
    AList (fun _ : GoString => NodeRegistryEntry Node) :=
  l.foldl (fun m n => m.insert n entry) m

/-- One call of `Register`: its arguments. -/
structure RegisterCall (Node : Type) where
  names : List GoString
  initf : Initializer Node
  credentials : Option Credentials

/-- The registry after the calls of a sequence, made one after the other. -/
def registerAll (tbl : Nat → Bool) :
    NodeRegistry Node → List (RegisterCall Node) → NodeRegistry Node
  | r, [] => r
  | r, c :: cs => registerAll tbl (Register tbl r c.names c.initf c.credentials).1 cs

/-- The names of the calls of a sequence that returned nil. -/
def successfulNames (tbl : Nat → Bool) :
    NodeRegistry Node → List (RegisterCall Node) → List GoString
  | _, [] => []
  | r, c :: cs =>
    (if (Register tbl r c.names c.initf c.credentials).2.isNone then c.names else [])
      ++ successfulNames tbl (Register tbl r c.names c.initf c.credentials).1 cs

/-- The names of a call that precede its first conflict, all of them when there is none:
the longest beginning of `names` that is duplicate free and disjoint from `keys`. -/
def storedPrefix (keys : List GoString) : List GoString → List GoString
  | [] => []
  | n :: rest => if n ∈ keys then [] else n :: storedPrefix (n :: keys) rest

/-- The names stored by the calls of a sequence: for each call, its names before its first
conflict. -/
def storedNames (tbl : Nat → Bool) :
    NodeRegistry Node → List (RegisterCall Node) → List GoString
  | _, [] => []
  | r, c :: cs =>
    storedPrefix r.keys c.names
      ++ storedNames tbl (Register tbl r c.names c.initf c.credentials).1 cs

/-- A byte that `%q` copies unchanged: printable ASCII other than `"` and `\`. -/
def plainByte (b : Nat) : Prop := 0x20 ≤ b ∧ b ≤ 0x7E ∧ b ≠ 0x22 ∧ b ≠ 0x5C

/-- Every call of the sequence returns nil. -/
def allSucceed (tbl : Nat → Bool) : NodeRegistry Node → List (RegisterCall Node) → Bool
  | _, [] => true
  | r, c :: cs =>
    (Register tbl r c.names c.initf c.credentials).2.isNone
      && allSucceed tbl (Register tbl r c.names c.initf c.credentials).1 cs

/-! ## Initializers as closures

An initializer is caller code.  To speak of what a call of `NewNodeOfKind` leaves behind,
the initializer is a closure run in a program state `σ`, which holds whatever the closure
reaches, the registry included: `index s` is the content of `r.nodeIndex` in state `s`. -/

/-- The struct `NodeRegistryEntry` with its initializer as a closure: run in a program
state, `initFunction` leaves a program state and returns a node. -/
structure ClosureEntry (σ Node : Type) where
  nodeKindNames : List GoString
  initFunction : σ → σ × Option Node
  credentials : Option Credentials

/-- The method `NewNodeOfKind` run in the program state `s`: the state it leaves, the
returned node and the returned error.  On a hit the state is the one the initializer of
the entry leaves. -/
def NewNodeOfKindIn {σ : Type} (tbl : Nat → Bool)
    (index : σ → AList (fun _ : GoString => ClosureEntry σ Node))
    (nodeKindName : GoString) (s : σ) : σ × (Option Node × Option GoString) :=
  match (index s).lookup nodeKindName with
  | none =>
    let registeredKinds := Join (GetRegisteredNodeKindNamesVia (index s).keys) (ascii ", ")
    (s, (none, some (errNotSupported tbl nodeKindName registeredKinds)))
  | some nodeKindEntry =>
    ((nodeKindEntry.initFunction s).1, ((nodeKindEntry.initFunction s).2, none))

/-- The method `GetRegisteredNodeKindNames` run in the program state `s`: its body reads the
keys into a new slice and sorts that slice; it calls no caller code. -/
def GetRegisteredNodeKindNamesIn {σ : Type}
    (index : σ → AList (fun _ : GoString => ClosureEntry σ Node)) (s : σ) :
    σ × List GoString :=
  (s, GetRegisteredNodeKindNamesVia (index s).keys)

/-- The method `Kind` run in the program state `s`: one read of the map. -/
def KindIn {σ : Type} (index : σ → AList (fun _ : GoString => ClosureEntry σ Node))
    (kind : GoString) (s : σ) : σ × Option (ClosureEntry σ Node) :=
  (s, (index s).lookup kind)

/-- An entry with an initializer that touches no state, as a closure entry. -/
def closureOf {σ : Type} (e : NodeRegistryEntry Node) : ClosureEntry σ Node :=
  { nodeKindNames := e.nodeKindNames
    initFunction := fun s => (s, e.initFunction ())
    credentials := e.credentials }

/-- The index of a registry whose initializers touch no state, as an index of closure
entries: the same keys, each entry turned into a closure entry. -/
def closureIndex {σ : Type} (r : NodeRegistry Node) :
    AList (fun _ : GoString => ClosureEntry σ Node) :=
  ⟨r.nodeIndex.entries.map (fun p => ⟨p.1, closureOf p.2⟩), by
    have h := r.nodeIndex.nodupKeys
    simpa [List.NodupKeys, List.keys, List.map_map, Function.comp_def] using h⟩

/-- Every stored entry is stored under a beginning of its kind names: the invariant of
`Register`, whether it succeeds or fails. -/
def StoredUnderBeginning (r : NodeRegistry Node) : Prop :=
  ∀ k e, Kind r k = some e →
    ∃ i, k ∈ e.nodeKindNames.take i ∧ ∀ n ∈ e.nodeKindNames.take i, Kind r n = some e

/-- Every stored entry is stored under each of its kind names: the invariant of the
calls of `Register` that succeed. -/
def StoredUnderAllNames (r : NodeRegistry Node) : Prop :=
  ∀ k e, Kind r k = some e → ∀ n ∈ e.nodeKindNames, Kind r n = some e

/-! ## Data of the examples -/

/-- A table for the examples: no rune above Latin-1 is printable.  The strings of the
examples are ASCII, for which `IsPrint` never consults the table. -/
def exampleTable : Nat → Bool := fun _ => false

/-- A registry for the examples, with the single kind name `a"b`. -/
def quoteRegistry : NodeRegistry Nat :=
  (Register exampleTable NewNodeRegistry [ascii "a\"b"] (fun _ => some 0) none).1

/-- A registry for the examples: `router-a` and `router-b` registered by one call, with the
initializer that produces node `1`. -/
def routerRegistry : NodeRegistry Nat :=
  (Register exampleTable NewNodeRegistry [ascii "router-a", ascii "router-b"]
    (fun _ => some 1) (NewCredentials (ascii "admin") (ascii "secret"))).1

/-- A sequence of two calls for the examples: `a` alone, then `b` together with `a`. -/
def conflictingCalls : List (RegisterCall Nat) :=
  [{ names := [ascii "a"], initf := fun _ => some 1, credentials := none },
   { names := [ascii "b", ascii "a"], initf := fun _ => some 2, credentials := none }]

/-- A sequence of two calls for the examples: `a` alone, then `b`, `a` and `c` together. -/
def refusedCalls : List (RegisterCall Nat) :=
  [{ names := [ascii "a"], initf := fun _ => some 1, credentials := none },
   { names := [ascii "b", ascii "a", ascii "c"], initf := fun _ => some 2, credentials := none }]

/-- A sequence of two calls for the examples, both accepted: the routers, then `switch`. -/
def acceptedCalls : List (RegisterCall Nat) :=
  [{ names := [ascii "router-a", ascii "router-b"], initf := fun _ => some 1,
     credentials := NewCredentials (ascii "admin") (ascii "secret") },
   { names := [ascii "switch"], initf := fun _ => some 2, credentials := none }]

/-- The entry of the example of a re-entrant initializer: the initializer registered under
`a` is the closure `func() Node { r.Register([]string{"x"}, ...); return node1 }`.  The
program state is the flag that this registration of `x` has happened. -/
def reentrantEntry : ClosureEntry Bool Nat :=
  { nodeKindNames := [ascii "a"], initFunction := fun _ => (true, some 1), credentials := none }

/-- The entry that the re-entrant initializer registers under `x`. -/
def reentrantExtra : ClosureEntry Bool Nat :=
  { nodeKindNames := [ascii "x"], initFunction := fun s => (s, some 2), credentials := none }

/-- The index of the example of a re-entrant initializer: `a` alone before the initializer
has run, `a` and `x` afterwards. -/
def reentrantIndex (registered : Bool) : AList (fun _ : GoString => ClosureEntry Bool Nat) :=
  if registered then
    (AList.insert (ascii "x") reentrantExtra (AList.insert (ascii "a") reentrantEntry ∅))
  else AList.insert (ascii "a") reentrantEntry ∅

/-- The entry of the example of a counting initializer: the closure returns a new node on
every call, numbered by a counter that is the program state. -/
def countingEntry : ClosureEntry Nat Nat :=
  { nodeKindNames := [ascii "a"], initFunction := fun n => (n + 1, some n), credentials := none }

/-- The index of the example of a counting initializer: `a` in every state. -/
def countingIndex (_ : Nat) : AList (fun _ : GoString => ClosureEntry Nat Nat) :=
  AList.insert (ascii "a") countingEntry ∅

/-! ## Lemmas and theorems -/

theorem conflictAt_zero (keys : List GoString) (a : GoString) (l : List GoString) :
    ConflictAt keys (a :: l) 0 ↔ a ∈ keys := by
  simp [ConflictAt]

theorem conflictAt_succ (keys : List GoString) (a : GoString) (l : List GoString) (i : Nat) :
    ConflictAt keys (a :: l) (i + 1) ↔ ConflictAt (a :: keys) l i := by
  simp only [ConflictAt, List.getElem?_cons_succ, List.take_succ_cons, List.mem_cons]
  constructor
  · rintro ⟨n, h, h1 | h1 | h1⟩
    · exact ⟨n, h, Or.inl (Or.inr h1)⟩
    · exact ⟨n, h, Or.inl (Or.inl h1)⟩
    · exact ⟨n, h, Or.inr h1⟩
  · rintro ⟨n, h, (h1 | h1) | h1⟩
    · exact ⟨n, h, Or.inr (Or.inl h1)⟩
    · exact ⟨n, h, Or.inl h1⟩
    · exact ⟨n, h, Or.inr (Or.inr h1)⟩

theorem not_conflictAt_nil (keys : List GoString) (i : Nat) : ¬ ConflictAt keys [] i := by
  simp [ConflictAt]

theorem exists_conflictAt_iff (names : List GoString) :
    ∀ keys : List GoString,
      (∃ i, ConflictAt keys names i) ↔ ¬ (names.Nodup ∧ ∀ n ∈ names, n ∉ keys) := by
  induction names with
  | nil => intro keys; simp [not_conflictAt_nil]
  | cons a l ih =>
    intro keys
    constructor
    · rintro ⟨i, hi⟩ ⟨hnd, hdis⟩
      cases i with
      | zero => exact hdis a (List.mem_cons_self _ _) ((conflictAt_zero keys a l).1 hi)
      | succ i =>
        have h := (ih (a :: keys)).1 ⟨i, (conflictAt_succ keys a l i).1 hi⟩
        apply h
        rw [List.nodup_cons] at hnd
        refine ⟨hnd.2, fun n hn hk => ?_⟩
        rcases List.mem_cons.1 hk with h1 | h1
        · exact hnd.1 (h1 ▸ hn)
        · exact hdis n (List.mem_cons_of_mem _ hn) h1
    · intro h
      by_cases ha : a ∈ keys
      · exact ⟨0, (conflictAt_zero keys a l).2 ha⟩
      · have h2 : ¬ (l.Nodup ∧ ∀ n ∈ l, n ∉ a :: keys) := by
          rintro ⟨hnd, hdis⟩
          apply h
          refine ⟨List.nodup_cons.2 ⟨fun hal => hdis a hal (List.mem_cons_self _ _), hnd⟩, ?_⟩
          intro n hn hk
          rcases List.mem_cons.1 hn with h1 | h1
          · exact ha (h1 ▸ hk)
          · exact hdis n h1 (List.mem_cons_of_mem _ hk)
        obtain ⟨i, hi⟩ := (ih (a :: keys)).2 h2
        exact ⟨i + 1, (conflictAt_succ keys a l i).2 hi⟩

theorem mem_keys_iff_lookup (r : NodeRegistry Node) (k : GoString) :
    k ∈ r.keys ↔ (r.nodeIndex.lookup k).isSome = true := by
  unfold NodeRegistry.keys
  rw [← AList.mem_keys, AList.lookup_isSome]

theorem mem_keys_insert (r : NodeRegistry Node) (a k : GoString) (e : NodeRegistryEntry Node) :
    k ∈ (NodeRegistry.mk (r.nodeIndex.insert a e)).keys ↔ k ∈ a :: r.keys := by
  unfold NodeRegistry.keys
  simp only [← AList.mem_keys, AList.mem_insert, List.mem_cons]

theorem conflictAt_congr {keys keys2 : List GoString} (h : ∀ k, k ∈ keys ↔ k ∈ keys2)
    (names : List GoString) (i : Nat) : ConflictAt keys names i ↔ ConflictAt keys2 names i := by
  simp only [ConflictAt, h]

theorem addEntryLoop_cons_of_mem (tbl : Nat → Bool) (e : NodeRegistryEntry Node)
    (a : GoString) (l : List GoString) (r : NodeRegistry Node) (h : a ∈ r.keys) :
    addEntryLoop tbl e (a :: l) r = (r, some (errAlreadyRegistered tbl a)) := by
  rw [mem_keys_iff_lookup] at h
  simp [addEntryLoop, h]

theorem addEntryLoop_cons_of_not_mem (tbl : Nat → Bool) (e : NodeRegistryEntry Node)
    (a : GoString) (l : List GoString) (r : NodeRegistry Node) (h : a ∉ r.keys) :
    addEntryLoop tbl e (a :: l) r = addEntryLoop tbl e l ⟨r.nodeIndex.insert a e⟩ := by
  rw [mem_keys_iff_lookup] at h
  simp [addEntryLoop, h]

/-- With first conflict at position `i`, the loop stores the names before `i` and returns
the error about the name at `i`. -/
theorem addEntryLoop_of_firstConflict (tbl : Nat → Bool) (e : NodeRegistryEntry Node) :
    ∀ (i : Nat) (names : List GoString) (r : NodeRegistry Node) (n : GoString),
      FirstConflictAt r.keys names i → names[i]? = some n →
      addEntryLoop tbl e names r
        = (⟨insertAll e (names.take i) r.nodeIndex⟩, some (errAlreadyRegistered tbl n)) := by
  intro i
  induction i with
  | zero =>
    intro names r n hf hn
    cases names with
    | nil => simp at hn
    | cons a l =>
      simp only [List.getElem?_cons_zero, Option.some.injEq] at hn
      subst hn
      rw [addEntryLoop_cons_of_mem tbl e a l r ((conflictAt_zero _ _ _).1 hf.1)]
      simp [insertAll]
  | succ i ih =>
    intro names r n hf hn
    cases names with
    | nil => simp at hn
    | cons a l =>
      have ha : a ∉ r.keys := fun h => hf.2 0 (Nat.succ_pos i) ((conflictAt_zero _ _ _).2 h)
      rw [addEntryLoop_cons_of_not_mem tbl e a l r ha]
      have hf2 : FirstConflictAt (NodeRegistry.mk (r.nodeIndex.insert a e)).keys l i := by
        constructor
        · rw [conflictAt_congr (mem_keys_insert r a · e)]
          exact (conflictAt_succ _ _ _ _).1 hf.1
        · intro j hj hc
          rw [conflictAt_congr (mem_keys_insert r a · e)] at hc
          exact hf.2 (j + 1) (Nat.succ_lt_succ hj) ((conflictAt_succ _ _ _ _).2 hc)
      rw [ih l _ n hf2 (by simpa using hn)]
      simp [insertAll]

/-- Without a conflict the loop stores every name and returns nil. -/
theorem addEntryLoop_of_no_conflict (tbl : Nat → Bool) (e : NodeRegistryEntry Node) :
    ∀ (names : List GoString) (r : NodeRegistry Node),
      (∀ i, ¬ ConflictAt r.keys names i) →
      addEntryLoop tbl e names r = (⟨insertAll e names r.nodeIndex⟩, none) := by
  intro names
  induction names with
  | nil => intro r _; simp [addEntryLoop, insertAll]
  | cons a l ih =>
    intro r h
    have ha : a ∉ r.keys := fun hk => h 0 ((conflictAt_zero _ _ _).2 hk)
    rw [addEntryLoop_cons_of_not_mem tbl e a l r ha, ih]
    · simp [insertAll]
    · intro i hc
      rw [conflictAt_congr (mem_keys_insert r a · e)] at hc
      exact h (i + 1) ((conflictAt_succ _ _ _ _).2 hc)

theorem exists_firstConflict {keys names : List GoString} (h : ∃ i, ConflictAt keys names i) :
    ∃ i n, FirstConflictAt keys names i ∧ names[i]? = some n := by
  classical
  refine ⟨Nat.find h, ?_⟩
  obtain ⟨n, hn, hc⟩ := Nat.find_spec h
  exact ⟨n, ⟨⟨n, hn, hc⟩, fun j hj => Nat.find_min h hj⟩, hn⟩

theorem lookup_insertAll_of_not_mem (e : NodeRegistryEntry Node) (k : GoString) :
    ∀ (l : List GoString) (m : AList (fun _ : GoString => NodeRegistryEntry Node)),
      k ∉ l → (insertAll e l m).lookup k = m.lookup k := by
  intro l
  induction l with
  | nil => intro m _; rfl
  | cons a l ih =>
    intro m h
    have h1 : k ≠ a := fun hka => h (hka ▸ List.mem_cons_self _ _)
    have h2 : k ∉ l := fun hkl => h (List.mem_cons_of_mem _ hkl)
    show (insertAll e l (m.insert a e)).lookup k = m.lookup k
    rw [ih _ h2, AList.lookup_insert_ne h1]

theorem lookup_insertAll_of_mem (e : NodeRegistryEntry Node) (k : GoString) :
    ∀ (l : List GoString) (m : AList (fun _ : GoString => NodeRegistryEntry Node)),
      k ∈ l → (insertAll e l m).lookup k = some e := by
  intro l
  induction l with
  | nil => intro m h; simp at h
  | cons a l ih =>
    intro m h
    show (insertAll e l (m.insert a e)).lookup k = some e
    by_cases hkl : k ∈ l
    · exact ih _ hkl
    · have hka : k = a := by
        rcases List.mem_cons.1 h with h1 | h1
        · exact h1
        · exact absurd h1 hkl
      rw [lookup_insertAll_of_not_mem e k l _ hkl, hka, AList.lookup_insert]

theorem mem_keys_insertAll (e : NodeRegistryEntry Node) (k : GoString) (l : List GoString)
    (m : AList (fun _ : GoString => NodeRegistryEntry Node)) :
    k ∈ (NodeRegistry.mk (insertAll e l m)).keys ↔ k ∈ l ∨ k ∈ (NodeRegistry.mk m).keys := by
  rw [mem_keys_iff_lookup, mem_keys_iff_lookup]
  by_cases h : k ∈ l
  · simp [lookup_insertAll_of_mem e k l m h, h]
  · simp [lookup_insertAll_of_not_mem e k l m h, h]

theorem Register_eq_loop (tbl : Nat → Bool) (r : NodeRegistry Node) (names : List GoString)
    (initf : Initializer Node) (c : Option Credentials) :
    Register tbl r names initf c
      = addEntryLoop tbl (newRegistryEntry names initf c) names r := rfl

theorem Register_err_none_iff (tbl : Nat → Bool) (r : NodeRegistry Node)
    (names : List GoString) (initf : Initializer Node) (c : Option Credentials) :
    (Register tbl r names initf c).2 = none ↔ ∀ i, ¬ ConflictAt r.keys names i := by
  constructor
  · intro h i hi
    obtain ⟨j, n, hf, hn⟩ := exists_firstConflict ⟨i, hi⟩
    rw [Register_eq_loop, addEntryLoop_of_firstConflict tbl _ j names r n hf hn] at h
    simp at h
  · intro h
    rw [Register_eq_loop, addEntryLoop_of_no_conflict tbl _ names r h]

theorem Register_of_no_conflict (tbl : Nat → Bool) (r : NodeRegistry Node)
    (names : List GoString) (initf : Initializer Node) (c : Option Credentials)
    (h : (Register tbl r names initf c).2 = none) :
    (Register tbl r names initf c).1
      = ⟨insertAll (newRegistryEntry names initf c) names r.nodeIndex⟩ := by
  rw [Register_err_none_iff] at h
  rw [Register_eq_loop, addEntryLoop_of_no_conflict tbl _ names r h]

theorem addEntryLoop_frame (tbl : Nat → Bool) (e : NodeRegistryEntry Node) (k : GoString) :
    ∀ (names : List GoString) (r : NodeRegistry Node), k ∈ r.keys →
      (addEntryLoop tbl e names r).1.nodeIndex.lookup k = r.nodeIndex.lookup k := by
  intro names
  induction names with
  | nil => intro r _; rfl
  | cons a l ih =>
    intro r hk
    by_cases ha : a ∈ r.keys
    · rw [addEntryLoop_cons_of_mem tbl e a l r ha]
    · rw [addEntryLoop_cons_of_not_mem tbl e a l r ha]
      have hne : k ≠ a := fun h => ha (h ▸ hk)
      rw [ih _ ((mem_keys_insert r a k e).2 (List.mem_cons_of_mem _ hk))]
      exact AList.lookup_insert_ne hne

theorem Register_ok_iff (tbl : Nat → Bool) (r : NodeRegistry Node)
    (names : List GoString) (initf : Initializer Node) (c : Option Credentials) :
    (Register tbl r names initf c).2 = none ↔ names.Nodup ∧ ∀ n ∈ names, n ∉ r.keys := by
  rw [Register_err_none_iff, ← not_iff_not, ← exists_conflictAt_iff names r.keys]
  push_neg
  rfl

theorem Register_frame (tbl : Nat → Bool) (r : NodeRegistry Node) (names : List GoString)
    (initf : Initializer Node) (c : Option Credentials) (k : GoString) (hk : k ∈ r.keys) :
    k ∈ (Register tbl r names initf c).1.keys ∧
      Kind (Register tbl r names initf c).1 k = Kind r k := by
  have h := addEntryLoop_frame tbl (newRegistryEntry names initf c) k names r hk
  rw [← Register_eq_loop] at h
  refine ⟨?_, h⟩
  rw [mem_keys_iff_lookup, h, ← mem_keys_iff_lookup]
  exact hk

theorem Register_ok_keys (tbl : Nat → Bool) (r : NodeRegistry Node) (names : List GoString)
    (initf : Initializer Node) (c : Option Credentials)
    (h : (Register tbl r names initf c).2 = none) (k : GoString) :
    k ∈ (Register tbl r names initf c).1.keys ↔ k ∈ r.keys ∨ k ∈ names := by
  rw [Register_of_no_conflict tbl r names initf c h, mem_keys_insertAll, or_comm]

theorem Register_ok_kind (tbl : Nat → Bool) (r : NodeRegistry Node) (names : List GoString)
    (initf : Initializer Node) (c : Option Credentials)
    (h : (Register tbl r names initf c).2 = none) (n : GoString) (hn : n ∈ names) :
    Kind (Register tbl r names initf c).1 n
      = some { nodeKindNames := names, initFunction := initf, credentials := c } := by
  rw [Register_of_no_conflict tbl r names initf c h]
  exact lookup_insertAll_of_mem _ n _ _ hn

theorem Register_fail_of_mem (tbl : Nat → Bool) (r : NodeRegistry Node) (a : GoString)
    (l : List GoString) (initf : Initializer Node) (c : Option Credentials) (h : a ∈ r.keys) :
    Register tbl r (a :: l) initf c = (r, some (errAlreadyRegistered tbl a)) := by
  rw [Register_eq_loop, addEntryLoop_cons_of_mem tbl _ a l r h]

/-- Claim C1. `Register` returns an error exactly when some position of `names` conflicts (its
name is a key of the index before the call or occurs earlier in `names`); it returns nil
exactly when `names` is pairwise distinct and disjoint from the keys before the call. -/
theorem C1_register_fails_iff_conflict (tbl : Nat → Bool) (r : NodeRegistry Node)
    (names : List GoString) (initf : Initializer Node) (credentials : Option Credentials) :
    ((Register tbl r names initf credentials).2 ≠ none ↔ ∃ i, ConflictAt r.keys names i) ∧
    ((Register tbl r names initf credentials).2 = none ↔
      names.Nodup ∧ ∀ n ∈ names, n ∉ r.keys) := by
  refine ⟨?_, Register_ok_iff tbl r names initf credentials⟩
  rw [Ne, Register_err_none_iff]
  push_neg
  rfl

/-- Claim C2. When `Register` fails, its error text is
`node kind <Q> already registered in Node Registry`, `<Q>` being the `%q` quoting of the
name at the first conflicting position of `names`. -/
theorem C2_error_names_first_conflict (tbl : Nat → Bool) (r : NodeRegistry Node)
    (names : List GoString) (initf : Initializer Node) (credentials : Option Credentials)
    (msg : GoString) (h : (Register tbl r names initf credentials).2 = some msg) :
    ∃ i n, FirstConflictAt r.keys names i ∧ names[i]? = some n ∧
      msg = ascii "node kind " ++ Quote tbl n ++ ascii " already registered in Node Registry" := by
  have hc : ∃ i, ConflictAt r.keys names i := by
    by_contra hno
    push_neg at hno
    rw [(Register_err_none_iff tbl r names initf credentials).2 hno] at h
    simp at h
  obtain ⟨i, n, hf, hn⟩ := exists_firstConflict hc
  refine ⟨i, n, hf, hn, ?_⟩
  rw [Register_eq_loop, addEntryLoop_of_firstConflict tbl _ i names r n hf hn] at h
  simp only [Option.some.injEq] at h
  exact h.symm

/-- Claim C3. With the first conflict at position `i`, `Register` fails, the index afterwards is
the index before extended with the names before `i`, each mapped to the new entry, and a
name at position `i` or later is a key afterwards only if it was a key before or is one of
the names before `i`. -/
theorem C3_register_not_atomic (tbl : Nat → Bool) (r : NodeRegistry Node)
    (names : List GoString) (initf : Initializer Node) (credentials : Option Credentials)
    (i : Nat) (h : FirstConflictAt r.keys names i) :
    (Register tbl r names initf credentials).2 ≠ none ∧
    (Register tbl r names initf credentials).1.nodeIndex
      = (names.take i).foldl
          (fun m n => m.insert n (newRegistryEntry names initf credentials)) r.nodeIndex ∧
    (∀ k, Kind (Register tbl r names initf credentials).1 k
      = if k ∈ names.take i then some (newRegistryEntry names initf credentials)
        else Kind r k) ∧
    (∀ j n, i ≤ j → names[j]? = some n →
      n ∈ (Register tbl r names initf credentials).1.keys →
      n ∈ r.keys ∨ n ∈ names.take i) := by
  obtain ⟨n, hn, _⟩ := h.1
  have hr := addEntryLoop_of_firstConflict tbl (newRegistryEntry names initf credentials)
    i names r n h hn
  rw [← Register_eq_loop] at hr
  rw [hr]
  refine ⟨by simp, rfl, ?_, ?_⟩
  · intro k
    by_cases hk : k ∈ names.take i
    · simp only [Kind, hk, if_true]
      exact lookup_insertAll_of_mem _ k _ _ hk
    · simp only [Kind, hk, if_false]
      exact lookup_insertAll_of_not_mem _ k _ _ hk
  · intro j n' _ _ hk
    exact ((mem_keys_insertAll _ n' _ _).1 hk).symm

/-- Claim C5. After a `Register` call that returns nil, the keys are the keys before together
with `names`, and every name of `names` maps to one and the same entry, whose kind names
are `names`, whose initializer is `initf` and whose credentials are `credentials`. -/
theorem C5_register_success (tbl : Nat → Bool) (r : NodeRegistry Node)
    (names : List GoString) (initf : Initializer Node) (credentials : Option Credentials)
    (h : (Register tbl r names initf credentials).2 = none) :
    (∀ k, k ∈ (Register tbl r names initf credentials).1.keys ↔ k ∈ r.keys ∨ k ∈ names) ∧
    (∀ n ∈ names, Kind (Register tbl r names initf credentials).1 n
      = some { nodeKindNames := names, initFunction := initf, credentials := credentials }) ∧
    (∀ n ∈ names, NodeRegistryEntry.Credentials
      (Kind (Register tbl r names initf credentials).1 n) = credentials) := by
  refine ⟨Register_ok_keys tbl r names initf credentials h,
    Register_ok_kind tbl r names initf credentials h, ?_⟩
  intro n hn
  rw [Register_ok_kind tbl r names initf credentials h n hn]
  rfl

theorem collectKeys_eq (order : List GoString) : collectKeys order = order := by
  have h : ∀ (l acc : List GoString),
      l.foldl (fun result k => result ++ [k]) acc = acc ++ l := by
    intro l
    induction l with
    | nil => intro acc; simp
    | cons a l ih => intro acc; simp [ih]
  simpa [collectKeys] using h order []

theorem Via_perm (order : List GoString) : (GetRegisteredNodeKindNamesVia order).Perm order := by
  unfold GetRegisteredNodeKindNamesVia sortStrings
  rw [collectKeys_eq]
  exact List.perm_insertionSort _ _

theorem Via_sorted (order : List GoString) :
    List.Sorted (· ≤ ·) (GetRegisteredNodeKindNamesVia order) := by
  unfold GetRegisteredNodeKindNamesVia sortStrings
  exact List.sorted_insertionSort _ _

theorem Via_eq_of_perm {o1 o2 : List GoString} (h : o1.Perm o2) :
    GetRegisteredNodeKindNamesVia o1 = GetRegisteredNodeKindNamesVia o2 :=
  List.eq_of_perm_of_sorted (((Via_perm o1).trans h).trans (Via_perm o2).symm)
    (Via_sorted o1) (Via_sorted o2)

theorem keys_nodup (r : NodeRegistry Node) : r.keys.Nodup := AList.keys_nodup _

theorem names_perm (r : NodeRegistry Node) : (GetRegisteredNodeKindNames r).Perm r.keys :=
  Via_perm _

theorem names_nodup (r : NodeRegistry Node) : (GetRegisteredNodeKindNames r).Nodup :=
  (names_perm r).nodup_iff.2 (keys_nodup r)

theorem names_sorted (r : NodeRegistry Node) :
    List.Sorted (· < ·) (GetRegisteredNodeKindNames r) :=
  (Via_sorted _).lt_of_le (names_nodup r)

theorem mem_names (r : NodeRegistry Node) (k : GoString) :
    k ∈ GetRegisteredNodeKindNames r ↔ k ∈ r.keys := (names_perm r).mem_iff

/-- A strictly ascending list with the keys of `r` as its elements is the listing of `r`. -/
theorem names_eq_of_sorted (r : NodeRegistry Node) (l : List GoString)
    (hs : List.Sorted (· < ·) l) (hm : ∀ k, k ∈ l ↔ k ∈ r.keys) :
    GetRegisteredNodeKindNames r = l := by
  have hp : (GetRegisteredNodeKindNames r).Perm l :=
    (List.perm_ext_iff_of_nodup (names_nodup r) hs.nodup).2
      (fun k => (mem_names r k).trans (hm k).symm)
  exact List.eq_of_perm_of_sorted hp (names_sorted r) hs

/-- Claim C6. `GetRegisteredNodeKindNames` returns a strictly ascending, duplicate-free list
whose elements are exactly the keys of the index and whose length is the number of keys;
the result is the same for every order in which `range` visits the keys, and the same for
two registries with the same key set. -/
theorem C6_names_sorted_exact (r : NodeRegistry Node) :
    List.Sorted (· < ·) (GetRegisteredNodeKindNames r) ∧
    (GetRegisteredNodeKindNames r).Nodup ∧
    (∀ k, k ∈ GetRegisteredNodeKindNames r ↔ (r.nodeIndex.lookup k).isSome = true) ∧
    (GetRegisteredNodeKindNames r).length = r.keys.length ∧
    (∀ order : List GoString, order.Perm r.keys →
      GetRegisteredNodeKindNamesVia order = GetRegisteredNodeKindNames r) ∧
    (∀ r2 : NodeRegistry Node, (∀ k, k ∈ r2.keys ↔ k ∈ r.keys) →
      GetRegisteredNodeKindNames r2 = GetRegisteredNodeKindNames r) := by
  refine ⟨names_sorted r, names_nodup r, ?_, (names_perm r).length_eq, ?_, ?_⟩
  · intro k
    rw [mem_names, mem_keys_iff_lookup]
  · intro order h
    exact Via_eq_of_perm h
  · intro r2 h
    exact names_eq_of_sorted r2 _ (names_sorted r) (fun k => (mem_names r k).trans (h k).symm)

theorem NewNodeOfKind_of_lookup (tbl : Nat → Bool) (r : NodeRegistry Node) (k : GoString)
    (e : NodeRegistryEntry Node) (h : r.nodeIndex.lookup k = some e) :
    NewNodeOfKind tbl r k = (e.initFunction (), none) := by
  simp [NewNodeOfKind, h]

theorem NewNodeOfKind_of_not_mem (tbl : Nat → Bool) (r : NodeRegistry Node) (k : GoString)
    (h : k ∉ r.keys) :
    NewNodeOfKind tbl r k
      = (none, some (errNotSupported tbl k (Join (GetRegisteredNodeKindNames r) (ascii ", ")))) := by
  rw [mem_keys_iff_lookup, Option.not_isSome_iff_eq_none] at h
  simp [NewNodeOfKind, h]

theorem keys_new : (NewNodeRegistry : NodeRegistry Node).keys = [] := rfl

/-- Claim C4. `Register` never removes or re-points an existing registration: a key of the
index before the call is a key afterwards and `Kind` returns the same entry for it.  In
the scenario of two names `a < b` registered on a new registry, followed by a second
registration of `a`, the first call succeeds, the second fails, the listing is `[a, b]` and
`NewNodeOfKind b` returns what the first initializer produces. -/
theorem C4_register_keeps_registrations (tbl : Nat → Bool) (r : NodeRegistry Node)
    (names : List GoString) (initf : Initializer Node) (credentials : Option Credentials)
    (k : GoString) (hk : k ∈ r.keys)
    (a b : GoString) (initA initB : Initializer Node) (c1 c2 : Option Credentials)
    (hab : a < b) :
    (k ∈ (Register tbl r names initf credentials).1.keys ∧
      Kind (Register tbl r names initf credentials).1 k = Kind r k) ∧
    ((Register tbl NewNodeRegistry [a, b] initA c1).2 = none ∧
      (Register tbl (Register tbl NewNodeRegistry [a, b] initA c1).1 [a] initB c2).2 ≠ none ∧
      GetRegisteredNodeKindNames
        (Register tbl (Register tbl NewNodeRegistry [a, b] initA c1).1 [a] initB c2).1 = [a, b] ∧
      NewNodeOfKind tbl
        (Register tbl (Register tbl NewNodeRegistry [a, b] initA c1).1 [a] initB c2).1 b
        = (initA (), none)) := by
  refine ⟨Register_frame tbl r names initf credentials k hk, ?_⟩
  have hne : a ≠ b := ne_of_lt hab
  have h1 : (Register tbl (NewNodeRegistry : NodeRegistry Node) [a, b] initA c1).2 = none := by
    rw [Register_ok_iff]
    simp [keys_new, hne]
  have hkeys := Register_ok_keys tbl NewNodeRegistry [a, b] initA c1 h1
  have ha : a ∈ (Register tbl (NewNodeRegistry : NodeRegistry Node) [a, b] initA c1).1.keys :=
    (hkeys a).2 (Or.inr (by simp))
  have hb : b ∈ (Register tbl (NewNodeRegistry : NodeRegistry Node) [a, b] initA c1).1.keys :=
    (hkeys b).2 (Or.inr (by simp))
  have h2 := Register_fail_of_mem tbl _ a [] initB c2 ha
  rw [h2]
  refine ⟨h1, by simp, ?_, ?_⟩
  · apply names_eq_of_sorted
    · simp [hab]
    · intro k
      rw [hkeys k]
      simp [keys_new]
  · exact NewNodeOfKind_of_lookup tbl _ b _
      (Register_ok_kind tbl NewNodeRegistry [a, b] initA c1 h1 b (by simp))

theorem storedPrefix_congr (names : List GoString) :
    ∀ {keys keys2 : List GoString}, (∀ k, k ∈ keys ↔ k ∈ keys2) →
      storedPrefix keys names = storedPrefix keys2 names := by
  induction names with
  | nil => intro _ _ _; rfl
  | cons a l ih =>
    intro keys keys2 h
    have h2 : ∀ k, k ∈ a :: keys ↔ k ∈ a :: keys2 := by
      intro k; simp only [List.mem_cons, h]
    simp only [storedPrefix, h a, ih h2]

theorem storedPrefix_of_no_conflict (names : List GoString) :
    ∀ keys : List GoString, (∀ i, ¬ ConflictAt keys names i) → storedPrefix keys names = names := by
  induction names with
  | nil => intro _ _; rfl
  | cons a l ih =>
    intro keys h
    have ha : a ∉ keys := fun hk => h 0 ((conflictAt_zero _ _ _).2 hk)
    simp only [storedPrefix, ha, if_false]
    rw [ih (a :: keys) (fun i hc => h (i + 1) ((conflictAt_succ _ _ _ _).2 hc))]

theorem storedPrefix_of_firstConflict :
    ∀ (i : Nat) (names keys : List GoString), FirstConflictAt keys names i →
      storedPrefix keys names = names.take i := by
  intro i
  induction i with
  | zero =>
    intro names keys h
    cases names with
    | nil => rfl
    | cons a l => simp [storedPrefix, (conflictAt_zero _ _ _).1 h.1]
  | succ i ih =>
    intro names keys h
    cases names with
    | nil => exact absurd h.1 (not_conflictAt_nil _ _)
    | cons a l =>
      have ha : a ∉ keys := fun hk => h.2 0 (Nat.succ_pos i) ((conflictAt_zero _ _ _).2 hk)
      have h2 : FirstConflictAt (a :: keys) l i :=
        ⟨(conflictAt_succ _ _ _ _).1 h.1, fun j hj hc =>
          h.2 (j + 1) (Nat.succ_lt_succ hj) ((conflictAt_succ _ _ _ _).2 hc)⟩
      simp only [storedPrefix, ha, if_false, List.take_succ_cons, ih l (a :: keys) h2]

theorem addEntryLoop_index (tbl : Nat → Bool) (e : NodeRegistryEntry Node) :
    ∀ (names : List GoString) (r : NodeRegistry Node),
      (addEntryLoop tbl e names r).1.nodeIndex
        = insertAll e (storedPrefix r.keys names) r.nodeIndex := by
  intro names
  induction names with
  | nil => intro r; rfl
  | cons a l ih =>
    intro r
    by_cases ha : a ∈ r.keys
    · rw [addEntryLoop_cons_of_mem tbl e a l r ha]
      simp [storedPrefix, ha, insertAll]
    · rw [addEntryLoop_cons_of_not_mem tbl e a l r ha, ih]
      simp only [storedPrefix, ha, if_false, insertAll, List.foldl_cons]
      rw [storedPrefix_congr l (mem_keys_insert r a · e)]

theorem Register_keys (tbl : Nat → Bool) (r : NodeRegistry Node) (names : List GoString)
    (initf : Initializer Node) (c : Option Credentials) (k : GoString) :
    k ∈ (Register tbl r names initf c).1.keys ↔ k ∈ r.keys ∨ k ∈ storedPrefix r.keys names := by
  have h := addEntryLoop_index tbl (newRegistryEntry names initf c) names r
  rw [← Register_eq_loop] at h
  have h2 : (Register tbl r names initf c).1
      = ⟨insertAll (newRegistryEntry names initf c) (storedPrefix r.keys names) r.nodeIndex⟩ := by
    cases hr : (Register tbl r names initf c).1
    rw [hr] at h
    simp only at h
    rw [h]
  rw [h2, mem_keys_insertAll, or_comm]

theorem registerAll_keys (tbl : Nat → Bool) (calls : List (RegisterCall Node)) :
    ∀ (r : NodeRegistry Node) (k : GoString),
      k ∈ (registerAll tbl r calls).keys ↔ k ∈ r.keys ∨ k ∈ storedNames tbl r calls := by
  induction calls with
  | nil => intro r k; simp [registerAll, storedNames]
  | cons c cs ih =>
    intro r k
    simp only [registerAll, storedNames, List.mem_append]
    rw [ih, Register_keys, or_assoc]

theorem successfulNames_subset (tbl : Nat → Bool) (calls : List (RegisterCall Node)) :
    ∀ (r : NodeRegistry Node) (k : GoString),
      k ∈ successfulNames tbl r calls → k ∈ storedNames tbl r calls := by
  induction calls with
  | nil => intro r k h; simp [successfulNames] at h
  | cons c cs ih =>
    intro r k h
    simp only [successfulNames, storedNames, List.mem_append] at h ⊢
    rcases h with h | h
    · left
      by_cases hn : (Register tbl r c.names c.initf c.credentials).2 = none
      · rw [storedPrefix_of_no_conflict _ _ ((Register_err_none_iff tbl r _ _ _).1 hn)]
        simpa [hn] using h
      · cases hr : (Register tbl r c.names c.initf c.credentials).2 with
        | none => exact absurd hr hn
        | some m => simp [hr] at h
    · exact Or.inr (ih _ k h)

/-- Claim C7, amended. After any sequence of `Register` calls on a new registry the listing
is strictly ascending and duplicate free, and its elements are exactly the names stored
by the calls: for each call its names before its first conflict, which are all its names
when it returned nil.  Every name of a call that returned nil is in the listing. -/
theorem C7_names_after_calls (tbl : Nat → Bool) (calls : List (RegisterCall Node)) :
    List.Sorted (· < ·) (GetRegisteredNodeKindNames (registerAll tbl NewNodeRegistry calls)) ∧
    (GetRegisteredNodeKindNames (registerAll tbl NewNodeRegistry calls)).Nodup ∧
    (∀ k, k ∈ GetRegisteredNodeKindNames (registerAll tbl NewNodeRegistry calls) ↔
      k ∈ storedNames tbl NewNodeRegistry calls) ∧
    (∀ k, k ∈ successfulNames tbl NewNodeRegistry calls →
      k ∈ GetRegisteredNodeKindNames (registerAll tbl NewNodeRegistry calls)) ∧
    (∀ keys names : List GoString,
      ((∀ i, ¬ ConflictAt keys names i) → storedPrefix keys names = names) ∧
      (∀ i, FirstConflictAt keys names i → storedPrefix keys names = names.take i)) := by
  have hk : ∀ k, k ∈ GetRegisteredNodeKindNames (registerAll tbl NewNodeRegistry calls) ↔
      k ∈ storedNames tbl (NewNodeRegistry : NodeRegistry Node) calls := by
    intro k
    rw [mem_names, registerAll_keys]
    simp [keys_new]
  refine ⟨names_sorted _, names_nodup _, hk, ?_, ?_⟩
  · intro k h
    exact (hk k).2 (successfulNames_subset tbl calls _ k h)
  · intro keys names
    exact ⟨storedPrefix_of_no_conflict names keys,
      fun i h => storedPrefix_of_firstConflict i names keys h⟩

/-- Claim C8. `NewNodeOfKind k` returns an error, with a nil node, exactly when `k` is not a
key of the index; when `k` is a key it returns a nil error and the value produced by the
initializer of the entry stored under `k`, which is `initf ()` after a successful
`Register names initf _` with `k` among `names`. -/
theorem C8_new_node_of_kind (tbl : Nat → Bool) (r : NodeRegistry Node) (k : GoString) :
    ((NewNodeOfKind tbl r k).2 ≠ none ↔ k ∉ r.keys) ∧
    (k ∉ r.keys → (NewNodeOfKind tbl r k).1 = none) ∧
    (k ∈ r.keys → ∃ e, Kind r k = some e ∧ NewNodeOfKind tbl r k = (e.initFunction (), none)) ∧
    (∀ (r0 : NodeRegistry Node) (names : List GoString) (initf : Initializer Node)
      (c : Option Credentials), (Register tbl r0 names initf c).2 = none → k ∈ names →
      NewNodeOfKind tbl (Register tbl r0 names initf c).1 k = (initf (), none)) := by
  have hkey : k ∈ r.keys → ∃ e, Kind r k = some e ∧
      NewNodeOfKind tbl r k = (e.initFunction (), none) := by
    intro h
    rw [mem_keys_iff_lookup, Option.isSome_iff_exists] at h
    obtain ⟨e, he⟩ := h
    exact ⟨e, he, NewNodeOfKind_of_lookup tbl r k e he⟩
  have hno : k ∉ r.keys → ∃ m, NewNodeOfKind tbl r k = (none, some m) := by
    intro h
    exact ⟨_, NewNodeOfKind_of_not_mem tbl r k h⟩
  refine ⟨?_, ?_, hkey, ?_⟩
  · constructor
    · intro h hk
      obtain ⟨e, _, he⟩ := hkey hk
      rw [he] at h
      exact h rfl
    · intro h
      obtain ⟨m, hm⟩ := hno h
      rw [hm]
      simp
  · intro h
    obtain ⟨m, hm⟩ := hno h
    rw [hm]
  · intro r0 names initf c h hk
    exact NewNodeOfKind_of_lookup tbl _ k _ (Register_ok_kind tbl r0 names initf c h k hk)

/-- Claim C10. For duplicate-free name lists `A` and `B` without a common name, registering
`A` with `initA` and then `B` with `initB` on a new registry succeeds both times, and
afterwards `NewNodeOfKind` returns `initA ()` for each name of `A` and `initB ()` for each
name of `B`. -/
theorem C10_disjoint_sets (tbl : Nat → Bool) (A B : List GoString)
    (initA initB : Initializer Node) (cA cB : Option Credentials)
    (hA : A.Nodup) (hB : B.Nodup) (hAB : ∀ n, n ∈ A → n ∉ B) :
    (Register tbl NewNodeRegistry A initA cA).2 = none ∧
    (Register tbl (Register tbl NewNodeRegistry A initA cA).1 B initB cB).2 = none ∧
    (∀ n, n ∈ A →
      NewNodeOfKind tbl (Register tbl (Register tbl NewNodeRegistry A initA cA).1 B initB cB).1 n
        = (initA (), none)) ∧
    (∀ n, n ∈ B →
      NewNodeOfKind tbl (Register tbl (Register tbl NewNodeRegistry A initA cA).1 B initB cB).1 n
        = (initB (), none)) := by
  have h1 : (Register tbl (NewNodeRegistry : NodeRegistry Node) A initA cA).2 = none := by
    rw [Register_ok_iff]
    exact ⟨hA, fun n _ => by simp [keys_new]⟩
  have hkeys := Register_ok_keys tbl NewNodeRegistry A initA cA h1
  have h2 : (Register tbl (Register tbl (NewNodeRegistry : NodeRegistry Node) A initA cA).1
      B initB cB).2 = none := by
    rw [Register_ok_iff]
    refine ⟨hB, fun n hn hk => ?_⟩
    rcases (hkeys n).1 hk with h | h
    · simp [keys_new] at h
    · exact hAB n h hn
  refine ⟨h1, h2, ?_, ?_⟩
  · intro n hn
    have hf := (Register_frame tbl _ B initB cB n ((hkeys n).2 (Or.inr hn))).2
    rw [Register_ok_kind tbl NewNodeRegistry A initA cA h1 n hn] at hf
    exact NewNodeOfKind_of_lookup tbl _ n _ hf
  · intro n hn
    exact NewNodeOfKind_of_lookup tbl _ n _ (Register_ok_kind tbl _ B initB cB h2 n hn)

theorem first_cases (b : Nat) :
    (first b = 0xF0 ∧ b < 0x80) ∨ first b = 0xF1 ∨ first b = 0x02 ∨ first b = 0x13 ∨
      first b = 0x03 ∨ first b = 0x23 ∨ first b = 0x34 ∨ first b = 0x04 ∨ first b = 0x44 := by
  unfold first
  split_ifs <;> simp_all

theorem decode_ascii (b : Nat) (t : GoString) (h : b < 0x80) :
    DecodeRuneInString (b :: t) = (b, 1) := by
  have hf : first b = 0xF0 := by simp [first, h]
  simp [DecodeRuneInString, hf]

theorem decode_width_pos (s0 : Nat) (t : GoString) :
    1 ≤ (DecodeRuneInString (s0 :: t)).2 ∧
      (DecodeRuneInString (s0 :: t)).2 ≤ (s0 :: t).length := by
  rcases first_cases s0 with h | h | h | h | h | h | h | h | h <;>
    rcases t with _ | ⟨s1, _ | ⟨s2, _ | ⟨s3, t⟩⟩⟩ <;>
    simp [DecodeRuneInString, h, acceptRanges] <;>
    (repeat' split) <;> simp

theorem decode_append (s0 : Nat) (t v : GoString) (hv : ∀ b, v.head? = some b → b < 0x80) :
    DecodeRuneInString (s0 :: t ++ v) = DecodeRuneInString (s0 :: t) := by
  rcases first_cases s0 with h | h | h | h | h | h | h | h | h <;>
    rcases t with _ | ⟨s1, _ | ⟨s2, _ | ⟨s3, t⟩⟩⟩ <;>
    rcases v with _ | ⟨b, v⟩ <;>
    simp [DecodeRuneInString, h, acceptRanges] <;>
    (try have hb := hv b (by simp)) <;>
    (try (repeat' split)) <;> (try simp_all) <;> (try omega)

theorem quoteLoop_nil (tbl : Nat → Bool) (n : Nat) : quoteLoop tbl n [] = [] := by
  cases n <;> rfl

theorem quoteLoop_cons (tbl : Nat → Bool) (n s0 : Nat) (t : GoString) :
    quoteLoop tbl (n + 1) (s0 :: t)
      = if (DecodeRuneInString (s0 :: t)).2 = 1 ∧ (DecodeRuneInString (s0 :: t)).1 = RuneError
        then ascii "\\x" ++ [lowerhex (s0 / 16), lowerhex (s0 % 16)] ++ quoteLoop tbl n t
        else appendEscapedRune tbl (DecodeRuneInString (s0 :: t)).1
          ++ quoteLoop tbl n ((s0 :: t).drop (DecodeRuneInString (s0 :: t)).2) := by
  have hd : (if 0x80 ≤ s0 then DecodeRuneInString (s0 :: t) else (s0, 1))
      = DecodeRuneInString (s0 :: t) := by
    split
    · rfl
    · exact (decode_ascii s0 t (by omega)).symm
  simp only [quoteLoop, hd]

/-- More fuel than the length of the string does not change the result of the loop. -/
theorem quoteLoop_fuel (tbl : Nat → Bool) :
    ∀ (n m : Nat) (s : GoString), s.length ≤ n → s.length ≤ m →
      quoteLoop tbl n s = quoteLoop tbl m s := by
  intro n
  induction n with
  | zero =>
    intro m s hn _
    have hs : s = [] := List.length_eq_zero.1 (Nat.le_zero.1 hn)
    rw [hs, quoteLoop_nil, quoteLoop_nil]
  | succ n ih =>
    intro m s hn hm
    cases s with
    | nil => rw [quoteLoop_nil, quoteLoop_nil]
    | cons s0 t =>
      cases m with
      | zero => simp at hm
      | succ m =>
        have hw := decode_width_pos s0 t
        simp only [List.length_cons] at hn hm hw
        rw [quoteLoop_cons, quoteLoop_cons]
        rw [ih m t (by omega) (by omega)]
        rw [ih m ((s0 :: t).drop (DecodeRuneInString (s0 :: t)).2)
          (by simp only [List.length_drop, List.length_cons]; omega)
          (by simp only [List.length_drop, List.length_cons]; omega)]

theorem escape_eq_loop (tbl : Nat → Bool) (n : Nat) (s : GoString) (h : s.length ≤ n) :
    quoteLoop tbl n s = escape tbl s :=
  quoteLoop_fuel tbl n s.length s h (Nat.le_refl _)

theorem escape_nil (tbl : Nat → Bool) : escape tbl [] = [] := rfl

/-- One round of the loop of `%q`, on a non-empty string. -/
theorem escape_cons (tbl : Nat → Bool) (s0 : Nat) (t : GoString) :
    escape tbl (s0 :: t)
      = if (DecodeRuneInString (s0 :: t)).2 = 1 ∧ (DecodeRuneInString (s0 :: t)).1 = RuneError
        then ascii "\\x" ++ [lowerhex (s0 / 16), lowerhex (s0 % 16)] ++ escape tbl t
        else appendEscapedRune tbl (DecodeRuneInString (s0 :: t)).1
          ++ escape tbl ((s0 :: t).drop (DecodeRuneInString (s0 :: t)).2) := by
  have hw := decode_width_pos s0 t
  simp only [List.length_cons] at hw
  show quoteLoop tbl (t.length + 1) (s0 :: t) = _
  rw [quoteLoop_cons, escape_eq_loop tbl _ t (Nat.le_refl _),
    escape_eq_loop tbl _ ((s0 :: t).drop (DecodeRuneInString (s0 :: t)).2)
      (by simp only [List.length_drop, List.length_cons]; omega)]

/-- The escaping of `%q` distributes over a concatenation whose second part is empty or
starts with an ASCII byte. -/
theorem escape_append (tbl : Nat → Bool) (v : GoString)
    (hv : ∀ b, v.head? = some b → b < 0x80) :
    ∀ (n : Nat) (u : GoString), u.length ≤ n →
      escape tbl (u ++ v) = escape tbl u ++ escape tbl v := by
  intro n
  induction n with
  | zero =>
    intro u hu
    have hs : u = [] := List.length_eq_zero.1 (Nat.le_zero.1 hu)
    simp [hs, escape_nil]
  | succ n ih =>
    intro u hu
    cases u with
    | nil => simp [escape_nil]
    | cons s0 t =>
      have hw := decode_width_pos s0 t
      simp only [List.length_cons] at hu hw
      have hd := decode_append s0 t v hv
      rw [List.cons_append] at hd ⊢
      rw [escape_cons, escape_cons, hd]
      split
      · rw [ih t (by omega)]
        simp only [List.append_assoc]
      · have hdrop : (s0 :: (t ++ v)).drop (DecodeRuneInString (s0 :: t)).2
            = (s0 :: t).drop (DecodeRuneInString (s0 :: t)).2 ++ v := by
          rw [← List.cons_append]
          exact List.drop_append_of_le_length (by simp only [List.length_cons]; omega)
        rw [hdrop, ih _ (by simp only [List.length_drop, List.length_cons]; omega)]
        simp only [List.append_assoc]

theorem appendEscapedRune_plain (tbl : Nat → Bool) (b : Nat) (h : plainByte b) :
    appendEscapedRune tbl b = [b] := by
  obtain ⟨h1, h2, h3, h4⟩ := h
  have hp : IsPrint tbl b = true := by
    unfold IsPrint
    rw [if_pos (by omega), if_pos ⟨h1, h2⟩]
  have hlt : b < 0x80 := by omega
  simp [appendEscapedRune, h3, h4, hp, AppendRune, hlt]

/-- The escaping of `%q` copies a leading run of plain bytes. -/
theorem escape_plain_append (tbl : Nat → Bool) (x v : GoString) (hx : ∀ b ∈ x, plainByte b) :
    escape tbl (x ++ v) = x ++ escape tbl v := by
  induction x with
  | nil => rfl
  | cons b x ih =>
    have hb := hx b (List.mem_cons_self _ _)
    have hlt : b < 0x80 := by have := hb.2.1; omega
    have hne : b ≠ RuneError := by have := hb.2.1; unfold RuneError; omega
    rw [List.cons_append, escape_cons, decode_ascii b _ hlt]
    simp only [hne, and_false, if_false, List.drop_succ_cons, List.drop_zero]
    rw [appendEscapedRune_plain tbl b hb, ih (fun c hc => hx c (List.mem_cons_of_mem _ hc))]
    rfl

theorem escape_plain (tbl : Nat → Bool) (x : GoString) (hx : ∀ b ∈ x, plainByte b) :
    escape tbl x = x := by
  have h := escape_plain_append tbl x [] hx
  rwa [List.append_nil, escape_nil, List.append_nil] at h

theorem Join_cons_cons (a b : GoString) (rest : List GoString) (sep : GoString) :
    Join (a :: b :: rest) sep = a ++ (sep ++ Join (b :: rest) sep) := by
  cases rest with
  | nil => simp [Join]
  | cons c rest => simp [Join]

theorem sep_plain : ∀ b ∈ ascii ", ", plainByte b := by
  intro b hb
  have h : b = 44 ∨ b = 32 := by simpa [ascii] using hb
  rcases h with h | h <;> subst h <;> simp [plainByte]

/-- The escaping of `%q` of a joined list is the joined list of the escaped elements. -/
theorem escape_Join (tbl : Nat → Bool) (l : List GoString) :
    escape tbl (Join l (ascii ", ")) = Join (l.map (escape tbl)) (ascii ", ") := by
  induction l with
  | nil => rfl
  | cons a l ih =>
    cases l with
    | nil => rfl
    | cons b rest =>
      rw [Join_cons_cons, List.map_cons, List.map_cons, Join_cons_cons,
        escape_append tbl _ (by intro c hc; simp [ascii] at hc; omega) a.length a (Nat.le_refl _),
        escape_plain_append tbl _ _ sep_plain, ih]
      rfl

theorem infix_Join (sep x : GoString) (l : List GoString) (h : x ∈ l) :
    x <:+: Join l sep := by
  induction l with
  | nil => simp at h
  | cons a l ih =>
    cases l with
    | nil =>
      have hx : x = a := by simpa using h
      subst hx
      exact ⟨[], [], by simp [Join]⟩
    | cons b rest =>
      rw [Join_cons_cons]
      rcases List.mem_cons.1 h with hx | hx
      · subst hx
        exact ⟨[], sep ++ Join (b :: rest) sep, by simp⟩
      · obtain ⟨p, q, hpq⟩ := ih hx
        exact ⟨a ++ sep ++ p, q, by simp [← hpq]⟩

/-- Claim C9, amended. For a name `k` that is not registered, `NewNodeOfKind k` fails, and
for every registered name the error text contains its `%q`-escaped form as a contiguous
substring; a registered name made only of printable ASCII bytes other than `"` and `\`
occurs itself as a contiguous substring of the error text. -/
theorem C9_error_lists_escaped_names (tbl : Nat → Bool) (r : NodeRegistry Node)
    (k : GoString) (hk : k ∉ r.keys) :
    ∃ msg, NewNodeOfKind tbl r k = (none, some msg) ∧
      (∀ x, x ∈ r.keys → escape tbl x <:+: msg) ∧
      (∀ x, x ∈ r.keys → (∀ b ∈ x, 0x20 ≤ b ∧ b ≤ 0x7E ∧ b ≠ 0x22 ∧ b ≠ 0x5C) → x <:+: msg) := by
  refine ⟨_, NewNodeOfKind_of_not_mem tbl r k hk, ?_⟩
  have h1 : ∀ x, x ∈ r.keys → escape tbl x <:+:
      errNotSupported tbl k (Join (GetRegisteredNodeKindNames r) (ascii ", ")) := by
    intro x hx
    have hm : escape tbl x ∈ (GetRegisteredNodeKindNames r).map (escape tbl) :=
      List.mem_map_of_mem _ ((mem_names r x).2 hx)
    obtain ⟨p, q, hpq⟩ := infix_Join (ascii ", ") _ _ hm
    rw [← escape_Join] at hpq
    refine ⟨ascii "kind " ++ Quote tbl k ++ ascii " is not supported. Supported kinds are "
      ++ [0x22] ++ p, q ++ [0x22], ?_⟩
    simp only [errNotSupported, Quote, ← hpq, List.append_assoc]
  refine ⟨h1, ?_⟩
  intro x hx hp
  have h2 := h1 x hx
  rwa [escape_plain tbl x hp] at h2

/-- Claim C9 as stated fails: with the registered name `a"b`, the error text for the
unregistered name `x` is `kind "x" is not supported. Supported kinds are "a\"b"`, which
does not contain `a"b`. -/
theorem C9_counterexample :
    ascii "a\"b" ∈ quoteRegistry.keys ∧ ascii "x" ∉ quoteRegistry.keys ∧
    NewNodeOfKind exampleTable quoteRegistry (ascii "x")
      = (none, some (ascii "kind \"x\" is not supported. Supported kinds are \"a\\\"b\"")) ∧
    ¬ (ascii "a\"b" <:+:
      ascii "kind \"x\" is not supported. Supported kinds are \"a\\\"b\"") := by
  decide

/-! ## Instances of the theorems on the examples -/

/-- Claim C2 on the example: a second registration of `router-a` is refused with the text
naming `router-a`. -/
theorem C2_witness :
    (Register exampleTable routerRegistry [ascii "router-a"] (fun _ => some 2) none).2
      = some (ascii "node kind \"router-a\" already registered in Node Registry") ∧
    ∃ i n, FirstConflictAt routerRegistry.keys [ascii "router-a"] i ∧
      [ascii "router-a"][i]? = some n ∧
      ascii "node kind \"router-a\" already registered in Node Registry"
        = ascii "node kind " ++ Quote exampleTable n
          ++ ascii " already registered in Node Registry" :=
  ⟨by decide,
    C2_error_names_first_conflict exampleTable routerRegistry [ascii "router-a"]
      (fun _ => some 2) none _ (by decide)⟩

/-- Claim C3 on the example: registering `switch`, `router-a`, `hub` conflicts at position 1;
`switch` is stored and nothing else. -/
theorem C3_witness :
    FirstConflictAt routerRegistry.keys [ascii "switch", ascii "router-a", ascii "hub"] 1 ∧
    (Register exampleTable routerRegistry [ascii "switch", ascii "router-a", ascii "hub"]
      (fun _ => some 2) none).2 ≠ none ∧
    (Register exampleTable routerRegistry [ascii "switch", ascii "router-a", ascii "hub"]
      (fun _ => some 2) none).1.nodeIndex
      = ([ascii "switch", ascii "router-a", ascii "hub"].take 1).foldl
          (fun m n => m.insert n (newRegistryEntry
            [ascii "switch", ascii "router-a", ascii "hub"] (fun _ => some 2) none))
          routerRegistry.nodeIndex :=
  have h : FirstConflictAt routerRegistry.keys
      [ascii "switch", ascii "router-a", ascii "hub"] 1 :=
    ⟨(conflictAt_succ _ _ _ _).2 ((conflictAt_zero _ _ _).2 (by decide)),
      fun j hj hc => by
        have hj0 : j = 0 := by omega
        subst hj0
        exact absurd ((conflictAt_zero _ _ _).1 hc) (by decide)⟩
  ⟨h, (C3_register_not_atomic exampleTable routerRegistry _ (fun _ => some 2) none 1 h).1,
    (C3_register_not_atomic exampleTable routerRegistry _ (fun _ => some 2) none 1 h).2.1⟩

/-- Claim C4 on the example: the refused registration of `router-a` leaves `router-b` in
place, and the scenario of the specification holds for `router-a` and `router-b`. -/
theorem C4_witness :
    ascii "router-b" ∈ routerRegistry.keys ∧ ascii "router-a" < ascii "router-b" ∧
    (ascii "router-b" ∈ (Register exampleTable routerRegistry [ascii "router-a"]
        (fun _ => some 2) none).1.keys ∧
      Kind (Register exampleTable routerRegistry [ascii "router-a"]
        (fun _ => some 2) none).1 (ascii "router-b") = Kind routerRegistry (ascii "router-b")) ∧
    GetRegisteredNodeKindNames
      (Register exampleTable
        (Register exampleTable (NewNodeRegistry : NodeRegistry Nat)
          [ascii "router-a", ascii "router-b"] (fun _ => some 1) none).1
        [ascii "router-a"] (fun _ => some 2) none).1
      = [ascii "router-a", ascii "router-b"] :=
  have h := C4_register_keeps_registrations exampleTable routerRegistry [ascii "router-a"]
    (fun _ => some 2) none (ascii "router-b") (by decide)
    (ascii "router-a") (ascii "router-b") (fun _ => some 1) (fun _ => some 2) none none
    (by decide)
  ⟨by decide, by decide, h.1, h.2.2.2.1⟩

/-- Claim C5 on the example: the registration of `router-a` and `router-b` on a new registry
succeeds and both names map to the one entry of the call. -/
theorem C5_witness :
    (Register exampleTable (NewNodeRegistry : NodeRegistry Nat)
      [ascii "router-a", ascii "router-b"] (fun _ => some 1) none).2 = none ∧
    ∀ n ∈ [ascii "router-a", ascii "router-b"],
      Kind (Register exampleTable (NewNodeRegistry : NodeRegistry Nat)
        [ascii "router-a", ascii "router-b"] (fun _ => some 1) none).1 n
      = some { nodeKindNames := [ascii "router-a", ascii "router-b"],
               initFunction := fun _ => some 1, credentials := none } :=
  ⟨by decide,
    (C5_register_success exampleTable (NewNodeRegistry : NodeRegistry Nat)
      [ascii "router-a", ascii "router-b"] (fun _ => some 1) none (by decide)).2.1⟩

/-- Claim C7 as stated fails: after `a` is registered and the registration of `b`, `a` is
refused, `b` is listed although no successful call registered it. -/
theorem C7_counterexample :
    (Register exampleTable (NewNodeRegistry : NodeRegistry Nat) [ascii "a"]
      (fun _ => some 1) none).2 = none ∧
    (Register exampleTable
      (Register exampleTable (NewNodeRegistry : NodeRegistry Nat) [ascii "a"]
        (fun _ => some 1) none).1
      [ascii "b", ascii "a"] (fun _ => some 2) none).2
      = some (ascii "node kind \"a\" already registered in Node Registry") ∧
    GetRegisteredNodeKindNames (registerAll exampleTable NewNodeRegistry conflictingCalls)
      = [ascii "a", ascii "b"] ∧
    successfulNames exampleTable NewNodeRegistry conflictingCalls = [ascii "a"] ∧
    ¬ (∀ k, k ∈ GetRegisteredNodeKindNames
          (registerAll exampleTable NewNodeRegistry conflictingCalls) ↔
        k ∈ successfulNames exampleTable NewNodeRegistry conflictingCalls) := by
  refine ⟨by decide, by decide, by decide, by decide, fun h => ?_⟩
  exact absurd ((h (ascii "b")).1 (by decide)) (by decide)

/-- Claim C9, amended, on the example: `x` is not registered, and the error text contains
`router-a` and `router-b`. -/
theorem C9_witness :
    ascii "x" ∉ routerRegistry.keys ∧
    ∃ msg, NewNodeOfKind exampleTable routerRegistry (ascii "x") = (none, some msg) ∧
      (∀ x, x ∈ routerRegistry.keys → escape exampleTable x <:+: msg) ∧
      (∀ x, x ∈ routerRegistry.keys →
        (∀ b ∈ x, 0x20 ≤ b ∧ b ≤ 0x7E ∧ b ≠ 0x22 ∧ b ≠ 0x5C) → x <:+: msg) :=
  ⟨by decide,
    C9_error_lists_escaped_names exampleTable routerRegistry (ascii "x") (by decide)⟩

/-- Claim C10 on the example: the routers and the switches, registered one after the other,
are each built by their own initializer. -/
theorem C10_witness :
    [ascii "router-a", ascii "router-b"].Nodup ∧ [ascii "switch", ascii "hub"].Nodup ∧
    (∀ n, n ∈ [ascii "router-a", ascii "router-b"] → n ∉ [ascii "switch", ascii "hub"]) ∧
    NewNodeOfKind exampleTable
      (Register exampleTable
        (Register exampleTable (NewNodeRegistry : NodeRegistry Nat)
          [ascii "router-a", ascii "router-b"] (fun _ => some 1) none).1
        [ascii "switch", ascii "hub"] (fun _ => some 2) none).1 (ascii "hub")
      = (some 2, none) :=
  have hd : ∀ n, n ∈ [ascii "router-a", ascii "router-b"] →
      n ∉ [ascii "switch", ascii "hub"] := by decide
  ⟨by decide, by decide, hd,
    (C10_disjoint_sets exampleTable [ascii "router-a", ascii "router-b"]
      [ascii "switch", ascii "hub"] (fun _ => some 1) (fun _ => some 2) none none
      (by decide) (by decide) hd).2.2.2 (ascii "hub") (by decide)⟩

/-! ## The entries of a registry built by calls of `Register` -/

theorem storedPrefix_take (names : List GoString) :
    ∀ keys : List GoString, ∃ i, storedPrefix keys names = names.take i := by
  induction names with
  | nil => intro _; exact ⟨0, rfl⟩
  | cons a l ih =>
    intro keys
    by_cases ha : a ∈ keys
    · exact ⟨0, by simp [storedPrefix, ha]⟩
    · obtain ⟨i, hi⟩ := ih (a :: keys)
      exact ⟨i + 1, by simp [storedPrefix, ha, hi]⟩

theorem storedPrefix_not_mem (names : List GoString) :
    ∀ (keys : List GoString) (n : GoString), n ∈ storedPrefix keys names → n ∉ keys := by
  induction names with
  | nil => intro _ n h; simp [storedPrefix] at h
  | cons a l ih =>
    intro keys n h hk
    by_cases ha : a ∈ keys
    · simp [storedPrefix, ha] at h
    · simp only [storedPrefix, ha, if_false, List.mem_cons] at h
      rcases h with h | h
      · exact ha (h ▸ hk)
      · exact ih (a :: keys) n h (List.mem_cons_of_mem _ hk)

theorem Register_kind (tbl : Nat → Bool) (r : NodeRegistry Node) (names : List GoString)
    (initf : Initializer Node) (c : Option Credentials) (k : GoString) :
    Kind (Register tbl r names initf c).1 k
      = if k ∈ storedPrefix r.keys names then some (newRegistryEntry names initf c)
        else Kind r k := by
  have h := addEntryLoop_index tbl (newRegistryEntry names initf c) names r
  rw [← Register_eq_loop] at h
  unfold Kind
  rw [h]
  by_cases hk : k ∈ storedPrefix r.keys names
  · rw [if_pos hk]
    exact lookup_insertAll_of_mem _ k _ _ hk
  · rw [if_neg hk]
    exact lookup_insertAll_of_not_mem _ k _ _ hk

theorem mem_keys_of_kind (r : NodeRegistry Node) (k : GoString) (e : NodeRegistryEntry Node)
    (h : Kind r k = some e) : k ∈ r.keys := by
  rw [mem_keys_iff_lookup]
  unfold Kind at h
  rw [h]
  rfl

theorem storedUnderBeginning_new : StoredUnderBeginning (NewNodeRegistry : NodeRegistry Node) := by
  intro k e h
  simp [Kind, NewNodeRegistry] at h

theorem storedUnderAllNames_new : StoredUnderAllNames (NewNodeRegistry : NodeRegistry Node) := by
  intro k e h
  simp [Kind, NewNodeRegistry] at h

theorem storedUnderBeginning_Register (tbl : Nat → Bool) (r : NodeRegistry Node)
    (names : List GoString) (initf : Initializer Node) (c : Option Credentials)
    (hr : StoredUnderBeginning r) :
    StoredUnderBeginning (Register tbl r names initf c).1 := by
  intro k e h
  rw [Register_kind] at h
  by_cases hk : k ∈ storedPrefix r.keys names
  · rw [if_pos hk] at h
    obtain ⟨i, hi⟩ := storedPrefix_take names r.keys
    have he : e = newRegistryEntry names initf c := (Option.some.inj h).symm
    subst he
    refine ⟨i, ?_, ?_⟩
    · show k ∈ names.take i
      rw [← hi]; exact hk
    · intro n hn
      have hn2 : n ∈ storedPrefix r.keys names := by rw [hi]; exact hn
      rw [Register_kind, if_pos hn2]
  · rw [if_neg hk] at h
    obtain ⟨i, hki, hall⟩ := hr k e h
    refine ⟨i, hki, ?_⟩
    intro n hn
    have hn2 : n ∉ storedPrefix r.keys names := fun hmem =>
      storedPrefix_not_mem names r.keys n hmem (mem_keys_of_kind r n e (hall n hn))
    rw [Register_kind, if_neg hn2]
    exact hall n hn

theorem storedUnderAllNames_Register (tbl : Nat → Bool) (r : NodeRegistry Node)
    (names : List GoString) (initf : Initializer Node) (c : Option Credentials)
    (hr : StoredUnderAllNames r) (hok : (Register tbl r names initf c).2 = none) :
    StoredUnderAllNames (Register tbl r names initf c).1 := by
  have hsp : storedPrefix r.keys names = names :=
    storedPrefix_of_no_conflict names r.keys ((Register_err_none_iff tbl r names initf c).1 hok)
  intro k e h n hn
  rw [Register_kind, hsp] at h
  rw [Register_kind, hsp]
  by_cases hk : k ∈ names
  · rw [if_pos hk] at h
    have he : e = newRegistryEntry names initf c := (Option.some.inj h).symm
    subst he
    have hn1 : n ∈ names := hn
    rw [if_pos hn1]
  · rw [if_neg hk] at h
    have h2 := hr k e h n hn
    have hn2 : n ∉ names := fun hmem =>
      storedPrefix_not_mem names r.keys n (by rw [hsp]; exact hmem) (mem_keys_of_kind r n e h2)
    rw [if_neg hn2]
    exact h2

theorem storedUnderBeginning_registerAll (tbl : Nat → Bool) (calls : List (RegisterCall Node)) :
    ∀ r : NodeRegistry Node, StoredUnderBeginning r →
      StoredUnderBeginning (registerAll tbl r calls) := by
  induction calls with
  | nil => intro r h; exact h
  | cons c cs ih =>
    intro r h
    exact ih _ (storedUnderBeginning_Register tbl r c.names c.initf c.credentials h)

theorem storedUnderAllNames_registerAll (tbl : Nat → Bool) (calls : List (RegisterCall Node)) :
    ∀ r : NodeRegistry Node, StoredUnderAllNames r → allSucceed tbl r calls = true →
      StoredUnderAllNames (registerAll tbl r calls) := by
  induction calls with
  | nil => intro r h _; exact h
  | cons c cs ih =>
    intro r h hs
    simp only [allSucceed, Bool.and_eq_true, Option.isNone_iff_eq_none] at hs
    exact ih _ (storedUnderAllNames_Register tbl r c.names c.initf c.credentials h hs.1) hs.2

theorem kind_new (k : GoString) : Kind (NewNodeRegistry : NodeRegistry Node) k = none := rfl

theorem Register_nil (tbl : Nat → Bool) (r : NodeRegistry Node) (initf : Initializer Node)
    (c : Option Credentials) : Register tbl r [] initf c = (r, none) := rfl

/-- Two registries with the same entry under every name have the same keys. -/
theorem mem_keys_congr {r1 r2 : NodeRegistry Node} (h : ∀ k, Kind r1 k = Kind r2 k)
    (k : GoString) : k ∈ r1.keys ↔ k ∈ r2.keys := by
  have hk := h k
  unfold Kind at hk
  rw [mem_keys_iff_lookup, mem_keys_iff_lookup, hk]

/-- Two registries with the same entry under every name answer every lookup alike. -/
theorem lookups_congr (tbl : Nat → Bool) {r1 r2 : NodeRegistry Node}
    (h : ∀ k, Kind r1 k = Kind r2 k) :
    GetRegisteredNodeKindNames r1 = GetRegisteredNodeKindNames r2 ∧
    ∀ k, NewNodeOfKind tbl r1 k = NewNodeOfKind tbl r2 k := by
  have hn : GetRegisteredNodeKindNames r1 = GetRegisteredNodeKindNames r2 :=
    names_eq_of_sorted r1 _ (names_sorted r2)
      (fun k => (mem_names r2 k).trans (mem_keys_congr h k).symm)
  refine ⟨hn, fun k => ?_⟩
  have hk := h k
  unfold Kind at hk
  unfold NewNodeOfKind
  rw [hk, hn]

/-! ## Claims C11 to C20 -/

/-- Claim C11, amended. In a registry built from a new one by calls of `Register` that all
returned nil, every name of every stored entry is a key and maps to that entry.  After
any calls of `Register`, failed ones included, every stored entry is stored under a
beginning of its kind names that contains the key it is found under. -/
theorem C11_entry_names_are_keys (tbl : Nat → Bool) (calls : List (RegisterCall Node))
    (hs : allSucceed tbl NewNodeRegistry calls = true) :
    (∀ k e, Kind (registerAll tbl NewNodeRegistry calls) k = some e →
      ∀ n ∈ e.nodeKindNames,
        n ∈ (registerAll tbl NewNodeRegistry calls).keys ∧
        Kind (registerAll tbl NewNodeRegistry calls) n = some e) ∧
    (∀ (anyCalls : List (RegisterCall Node)) k e,
      Kind (registerAll tbl NewNodeRegistry anyCalls) k = some e →
      ∃ i, k ∈ e.nodeKindNames.take i ∧ ∀ n ∈ e.nodeKindNames.take i,
        n ∈ (registerAll tbl NewNodeRegistry anyCalls).keys ∧
        Kind (registerAll tbl NewNodeRegistry anyCalls) n = some e) := by
  constructor
  · intro k e h n hn
    have h2 := storedUnderAllNames_registerAll tbl calls _ storedUnderAllNames_new hs k e h n hn
    exact ⟨mem_keys_of_kind _ n e h2, h2⟩
  · intro anyCalls k e h
    obtain ⟨i, hk, hall⟩ :=
      storedUnderBeginning_registerAll tbl anyCalls _ storedUnderBeginning_new k e h
    exact ⟨i, hk, fun n hn => ⟨mem_keys_of_kind _ n e (hall n hn), hall n hn⟩⟩

/-- Claim C11 as stated fails: after `a` is registered and the registration of `b`, `a`,
`c` is refused at `a`, the entry stored under `b` has the kind names `b`, `a`, `c`, but `a`
maps to the entry of the first call and `c` is not a key. -/
theorem C11_counterexample :
    (Kind (registerAll exampleTable NewNodeRegistry refusedCalls) (ascii "b")).map
        (fun e => e.nodeKindNames) = some [ascii "b", ascii "a", ascii "c"] ∧
    (Kind (registerAll exampleTable NewNodeRegistry refusedCalls) (ascii "a")).map
        (fun e => e.nodeKindNames) = some [ascii "a"] ∧
    ascii "c" ∉ (registerAll exampleTable NewNodeRegistry refusedCalls).keys ∧
    ¬ (∀ k e, Kind (registerAll exampleTable NewNodeRegistry refusedCalls) k = some e →
        ∀ n ∈ e.nodeKindNames,
          n ∈ (registerAll exampleTable NewNodeRegistry refusedCalls).keys ∧
          Kind (registerAll exampleTable NewNodeRegistry refusedCalls) n = some e) := by
  refine ⟨by decide, by decide, by decide, fun h => ?_⟩
  have hb : Kind (registerAll exampleTable NewNodeRegistry refusedCalls) (ascii "b")
      = some (newRegistryEntry [ascii "b", ascii "a", ascii "c"] (fun _ => some 2) none) := rfl
  have hc := (h _ _ hb (ascii "c") (by decide)).1
  exact absurd hc (by decide)

/-- Claim C12. Credentials built by `NewCredentials u p` return `u` as user name, `p` as
password and `[u, p]` as slice. -/
theorem C12_credentials_roundtrip (u p : GoString) :
    GetUsername (NewCredentials u p) = u ∧ GetPassword (NewCredentials u p) = p ∧
    Slice (NewCredentials u p) = [u, p] :=
  ⟨rfl, rfl, rfl⟩

/-- Claim C13. On nil credentials the user name and the password are empty and the slice is
empty; the slice of any credentials has length 0 or 2, and length 0 exactly for nil. -/
theorem C13_nil_credentials :
    GetUsername none = [] ∧ GetPassword none = [] ∧ Slice none = [] ∧
    ∀ c : Option Credentials,
      ((Slice c).length = 0 ∨ (Slice c).length = 2) ∧ ((Slice c).length = 0 ↔ c = none) := by
  refine ⟨rfl, rfl, rfl, fun c => ?_⟩
  cases c with
  | none => simp [Slice]
  | some c => simp [Slice]

/-- Claim C14. `Kind k` returns the entry stored under `k` when `k` is a key and nil
otherwise; on a miss the credentials are nil, with empty user name, password and slice;
after a successful `Register names _ creds` with `k` among `names` the credentials of
`Kind k` are `creds`. -/
theorem C14_kind_and_credentials (tbl : Nat → Bool) (r : NodeRegistry Node) (k : GoString) :
    (k ∈ r.keys → ∃ e, r.nodeIndex.lookup k = some e ∧ Kind r k = some e) ∧
    (k ∉ r.keys → Kind r k = none ∧
      NodeRegistryEntry.Credentials (Kind r k) = none ∧
      GetUsername (NodeRegistryEntry.Credentials (Kind r k)) = [] ∧
      GetPassword (NodeRegistryEntry.Credentials (Kind r k)) = [] ∧
      Slice (NodeRegistryEntry.Credentials (Kind r k)) = []) ∧
    (∀ (r0 : NodeRegistry Node) (names : List GoString) (initf : Initializer Node)
      (creds : Option Credentials), (Register tbl r0 names initf creds).2 = none → k ∈ names →
      NodeRegistryEntry.Credentials (Kind (Register tbl r0 names initf creds).1 k) = creds) := by
  refine ⟨?_, ?_, ?_⟩
  · intro h
    rw [mem_keys_iff_lookup, Option.isSome_iff_exists] at h
    obtain ⟨e, he⟩ := h
    exact ⟨e, he, he⟩
  · intro h
    rw [mem_keys_iff_lookup, Option.not_isSome_iff_eq_none] at h
    have hk : Kind r k = none := h
    rw [hk]
    exact ⟨rfl, rfl, rfl, rfl, rfl⟩
  · intro r0 names initf creds hok hk
    rw [Register_ok_kind tbl r0 names initf creds hok k hk]
    rfl

/-- Claim C15. For a name `k` that is not registered the error text of `NewNodeOfKind k` is
`kind <Q(k)> is not supported. Supported kinds are <Q(J)>`, `Q` being the `%q` quoting and
`J` the listing joined by `, `; the listing is strictly ascending and holds exactly the
registered names, and `J` is empty for a registry without keys. -/
theorem C15_not_supported_text (tbl : Nat → Bool) (r : NodeRegistry Node) (k : GoString)
    (hk : k ∉ r.keys) :
    (NewNodeOfKind tbl r k).2
      = some (ascii "kind " ++ Quote tbl k ++ ascii " is not supported. Supported kinds are "
          ++ Quote tbl (Join (GetRegisteredNodeKindNames r) (ascii ", "))) ∧
    List.Sorted (· < ·) (GetRegisteredNodeKindNames r) ∧
    (∀ n, n ∈ GetRegisteredNodeKindNames r ↔ n ∈ r.keys) ∧
    (r.keys = [] → Join (GetRegisteredNodeKindNames r) (ascii ", ") = []) := by
  refine ⟨?_, names_sorted r, mem_names r, ?_⟩
  · rw [NewNodeOfKind_of_not_mem tbl r k hk]
    simp only [errNotSupported, List.append_assoc]
  · intro h
    have hl : GetRegisteredNodeKindNames r = [] := by
      apply List.eq_nil_iff_forall_not_mem.2
      intro n hn
      rw [mem_names, h] at hn
      exact absurd hn (List.not_mem_nil _)
    rw [hl]
    rfl

/-- Claim C17. A registry returned by `NewNodeRegistry` is empty: its listing is empty, `Kind`
is nil for every name and `NewNodeOfKind` fails, with a nil node, for every name. -/
theorem C17_new_registry_empty (tbl : Nat → Bool) (k : GoString) :
    GetRegisteredNodeKindNames (NewNodeRegistry : NodeRegistry Node) = [] ∧
    (NewNodeRegistry : NodeRegistry Node).keys = [] ∧
    Kind (NewNodeRegistry : NodeRegistry Node) k = none ∧
    (NewNodeOfKind tbl (NewNodeRegistry : NodeRegistry Node) k).2 ≠ none ∧
    (NewNodeOfKind tbl (NewNodeRegistry : NodeRegistry Node) k).1 = none := by
  have hk : k ∉ (NewNodeRegistry : NodeRegistry Node).keys := by simp [keys_new]
  rw [NewNodeOfKind_of_not_mem tbl _ k hk]
  exact ⟨rfl, rfl, rfl, by simp, rfl⟩

/-- Claim C18. In a registry built from a new one by any calls of `Register`, every key maps
to an entry, never to nil, and is one of the kind names of that entry. -/
theorem C18_key_among_entry_names (tbl : Nat → Bool) (calls : List (RegisterCall Node))
    (k : GoString) (hk : k ∈ (registerAll tbl NewNodeRegistry calls).keys) :
    ∃ e, Kind (registerAll tbl NewNodeRegistry calls) k = some e ∧ k ∈ e.nodeKindNames := by
  rw [mem_keys_iff_lookup, Option.isSome_iff_exists] at hk
  obtain ⟨e, he⟩ := hk
  obtain ⟨i, hi, _⟩ :=
    storedUnderBeginning_registerAll tbl calls _ storedUnderBeginning_new k e he
  exact ⟨e, he, List.mem_of_mem_take hi⟩

/-- Claim C19. When `Register A` followed by `Register B` both succeed, so do `Register B`
followed by `Register A`, and the two resulting registries have the same listing, the
same entry (initializer and credentials) under every name and the same outcome of
`NewNodeOfKind` for every name. -/
theorem C19_registrations_commute (tbl : Nat → Bool) (r : NodeRegistry Node)
    (A B : List GoString) (fA fB : Initializer Node) (cA cB : Option Credentials)
    (hA : (Register tbl r A fA cA).2 = none)
    (hB : (Register tbl (Register tbl r A fA cA).1 B fB cB).2 = none) :
    (Register tbl r B fB cB).2 = none ∧
    (Register tbl (Register tbl r B fB cB).1 A fA cA).2 = none ∧
    GetRegisteredNodeKindNames (Register tbl (Register tbl r A fA cA).1 B fB cB).1
      = GetRegisteredNodeKindNames (Register tbl (Register tbl r B fB cB).1 A fA cA).1 ∧
    (∀ k, Kind (Register tbl (Register tbl r A fA cA).1 B fB cB).1 k
      = Kind (Register tbl (Register tbl r B fB cB).1 A fA cA).1 k) ∧
    (∀ k, NodeRegistryEntry.Credentials
        (Kind (Register tbl (Register tbl r A fA cA).1 B fB cB).1 k)
      = NodeRegistryEntry.Credentials
        (Kind (Register tbl (Register tbl r B fB cB).1 A fA cA).1 k)) ∧
    (∀ k, NewNodeOfKind tbl (Register tbl (Register tbl r A fA cA).1 B fB cB).1 k
      = NewNodeOfKind tbl (Register tbl (Register tbl r B fB cB).1 A fA cA).1 k) := by
  have hA2 := (Register_ok_iff tbl r A fA cA).1 hA
  have hB2 := (Register_ok_iff tbl _ B fB cB).1 hB
  have hkA := Register_ok_keys tbl r A fA cA hA
  have hB1 : (Register tbl r B fB cB).2 = none :=
    (Register_ok_iff tbl r B fB cB).2
      ⟨hB2.1, fun n hn hk => hB2.2 n hn ((hkA n).2 (Or.inl hk))⟩
  have hkB := Register_ok_keys tbl r B fB cB hB1
  have hdisj : ∀ n, n ∈ A → n ∉ B := fun n hnA hnB => hB2.2 n hnB ((hkA n).2 (Or.inr hnA))
  have hA1 : (Register tbl (Register tbl r B fB cB).1 A fA cA).2 = none :=
    (Register_ok_iff tbl _ A fA cA).2
      ⟨hA2.1, fun n hn hk => by
        rcases (hkB n).1 hk with h | h
        · exact hA2.2 n hn h
        · exact hdisj n hn h⟩
  have spA : storedPrefix r.keys A = A :=
    storedPrefix_of_no_conflict A _ ((Register_err_none_iff tbl r A fA cA).1 hA)
  have spB : storedPrefix (Register tbl r A fA cA).1.keys B = B :=
    storedPrefix_of_no_conflict B _ ((Register_err_none_iff tbl _ B fB cB).1 hB)
  have spB1 : storedPrefix r.keys B = B :=
    storedPrefix_of_no_conflict B _ ((Register_err_none_iff tbl r B fB cB).1 hB1)
  have spA1 : storedPrefix (Register tbl r B fB cB).1.keys A = A :=
    storedPrefix_of_no_conflict A _ ((Register_err_none_iff tbl _ A fA cA).1 hA1)
  have hkind : ∀ k, Kind (Register tbl (Register tbl r A fA cA).1 B fB cB).1 k
      = Kind (Register tbl (Register tbl r B fB cB).1 A fA cA).1 k := by
    intro k
    rw [Register_kind, Register_kind, Register_kind, Register_kind, spA, spB, spB1, spA1]
    by_cases hkA : k ∈ A
    · have hkB : k ∉ B := hdisj k hkA
      rw [if_neg hkB, if_pos hkA, if_pos hkA]
    · rw [if_neg hkA, if_neg hkA]
  have hl := lookups_congr tbl hkind
  exact ⟨hB1, hA1, hl.1, hkind, fun k => by rw [hkind k], hl.2⟩

/-- Claim C20. `Register` with no name returns nil and leaves the registry as it was; in a
registry built from a new one by calls of `Register`, no name maps to the entry the call
creates. -/
theorem C20_register_no_names (tbl : Nat → Bool) (r : NodeRegistry Node)
    (initf : Initializer Node) (credentials : Option Credentials) :
    (Register tbl r [] initf credentials).2 = none ∧
    (Register tbl r [] initf credentials).1 = r ∧
    (∀ k, Kind (Register tbl r [] initf credentials).1 k = Kind r k) ∧
    (∀ k, k ∈ (Register tbl r [] initf credentials).1.keys ↔ k ∈ r.keys) ∧
    (∀ (calls : List (RegisterCall Node)) (k : GoString),
      Kind (Register tbl (registerAll tbl NewNodeRegistry calls) [] initf credentials).1 k
        ≠ some (newRegistryEntry [] initf credentials)) := by
  refine ⟨rfl, rfl, fun _ => rfl, fun _ => Iff.rfl, ?_⟩
  intro calls k h
  rw [Register_nil] at h
  obtain ⟨i, hi, _⟩ :=
    storedUnderBeginning_registerAll tbl calls _ storedUnderBeginning_new k _ h
  simp [newRegistryEntry] at hi

/-- Claim C11, amended, on the example: the routers and the switch are registered by two
accepted calls, and the names of the entry of `router-b` are keys that map to it. -/
theorem C11_witness :
    allSucceed exampleTable NewNodeRegistry acceptedCalls = true ∧
    ∀ k e, Kind (registerAll exampleTable NewNodeRegistry acceptedCalls) k = some e →
      ∀ n ∈ e.nodeKindNames,
        n ∈ (registerAll exampleTable NewNodeRegistry acceptedCalls).keys ∧
        Kind (registerAll exampleTable NewNodeRegistry acceptedCalls) n = some e :=
  ⟨by decide, (C11_entry_names_are_keys exampleTable acceptedCalls (by decide)).1⟩

/-- Claim C15 on the example: the error text for the unregistered name `x`. -/
theorem C15_witness :
    ascii "x" ∉ routerRegistry.keys ∧
    (NewNodeOfKind exampleTable routerRegistry (ascii "x")).2
      = some (ascii
          "kind \"x\" is not supported. Supported kinds are \"router-a, router-b\"") ∧
    (NewNodeOfKind exampleTable routerRegistry (ascii "x")).2
      = some (ascii "kind " ++ Quote exampleTable (ascii "x")
          ++ ascii " is not supported. Supported kinds are "
          ++ Quote exampleTable
              (Join (GetRegisteredNodeKindNames routerRegistry) (ascii ", "))) :=
  ⟨by decide, by decide,
    (C15_not_supported_text exampleTable routerRegistry (ascii "x") (by decide)).1⟩

/-- Claim C18 on the example: after the refused registration of `b`, `a`, `c` the key `b`
maps to an entry that has `b` among its kind names. -/
theorem C18_witness :
    ascii "b" ∈ (registerAll exampleTable NewNodeRegistry refusedCalls).keys ∧
    ∃ e, Kind (registerAll exampleTable NewNodeRegistry refusedCalls) (ascii "b") = some e ∧
      ascii "b" ∈ e.nodeKindNames :=
  ⟨by decide,
    C18_key_among_entry_names exampleTable refusedCalls (ascii "b") (by decide)⟩

/-- Claim C19 on the example: `switch` and `hub` registered after or before `printer` on
the registry of the routers give the same listing. -/
theorem C19_witness :
    (Register exampleTable routerRegistry [ascii "switch", ascii "hub"]
      (fun _ => some 2) none).2 = none ∧
    (Register exampleTable
      (Register exampleTable routerRegistry [ascii "switch", ascii "hub"]
        (fun _ => some 2) none).1
      [ascii "printer"] (fun _ => some 3) none).2 = none ∧
    GetRegisteredNodeKindNames
      (Register exampleTable
        (Register exampleTable routerRegistry [ascii "switch", ascii "hub"]
          (fun _ => some 2) none).1
        [ascii "printer"] (fun _ => some 3) none).1
      = GetRegisteredNodeKindNames
        (Register exampleTable
          (Register exampleTable routerRegistry [ascii "printer"] (fun _ => some 3) none).1
          [ascii "switch", ascii "hub"] (fun _ => some 2) none).1 :=
  ⟨by decide, by decide,
    (C19_registrations_commute exampleTable routerRegistry [ascii "switch", ascii "hub"]
      [ascii "printer"] (fun _ => some 2) (fun _ => some 3) none none
      (by decide) (by decide)).2.2.1⟩

/-! ## What the lookups leave behind -/

theorem closureIndex_keys {σ : Type} (r : NodeRegistry Node) :
    (closureIndex r : AList (fun _ : GoString => ClosureEntry σ Node)).keys = r.keys := by
  simp [closureIndex, AList.keys, List.keys, NodeRegistry.keys, List.map_map, Function.comp_def]

theorem closureIndex_lookup {σ : Type} (r : NodeRegistry Node) (k : GoString) :
    (closureIndex r : AList (fun _ : GoString => ClosureEntry σ Node)).lookup k
      = (r.nodeIndex.lookup k).map closureOf := by
  have h : ∀ l : List (Sigma (fun _ : GoString => NodeRegistryEntry Node)),
      List.dlookup k (l.map (fun p =>
          (⟨p.1, closureOf p.2⟩ : Sigma (fun _ : GoString => ClosureEntry σ Node))))
        = (List.dlookup k l).map closureOf := by
    intro l
    induction l with
    | nil => rfl
    | cons p l ih =>
      obtain ⟨a, e⟩ := p
      by_cases hak : a = k
      · subst hak
        simp [List.dlookup_cons_eq]
      · have h1 : k ≠ a := fun h => hak h.symm
        rw [List.map_cons, List.dlookup_cons_ne l ⟨a, e⟩ h1]
        rw [← ih]
        exact List.dlookup_cons_ne _ (⟨a, closureOf e⟩ :
          Sigma (fun _ : GoString => ClosureEntry σ Node)) h1
  exact h r.nodeIndex.entries

theorem NewNodeOfKindIn_of_miss {σ : Type} (tbl : Nat → Bool)
    (index : σ → AList (fun _ : GoString => ClosureEntry σ Node)) (k : GoString) (s : σ)
    (h : (index s).lookup k = none) :
    NewNodeOfKindIn tbl index k s
      = (s, (none, some (errNotSupported tbl k
          (Join (GetRegisteredNodeKindNamesVia (index s).keys) (ascii ", "))))) := by
  simp [NewNodeOfKindIn, h]

theorem NewNodeOfKindIn_of_hit {σ : Type} (tbl : Nat → Bool)
    (index : σ → AList (fun _ : GoString => ClosureEntry σ Node)) (k : GoString) (s : σ)
    (e : ClosureEntry σ Node) (h : (index s).lookup k = some e) :
    NewNodeOfKindIn tbl index k s = ((e.initFunction s).1, ((e.initFunction s).2, none)) := by
  simp [NewNodeOfKindIn, h]

/-- With initializers that touch no state, `NewNodeOfKindIn` is `NewNodeOfKind` and leaves
the registry it was called on. -/
theorem NewNodeOfKindIn_closureIndex (tbl : Nat → Bool) (r : NodeRegistry Node) (k : GoString) :
    NewNodeOfKindIn tbl closureIndex k r = (r, NewNodeOfKind tbl r k) := by
  cases h : r.nodeIndex.lookup k with
  | none =>
    have h1 : (closureIndex r :
        AList (fun _ : GoString => ClosureEntry (NodeRegistry Node) Node)).lookup k = none := by
      rw [closureIndex_lookup, h]; rfl
    rw [NewNodeOfKindIn_of_miss tbl closureIndex k r h1, closureIndex_keys]
    simp [NewNodeOfKind, h, GetRegisteredNodeKindNames]
  | some e =>
    have h1 : (closureIndex r :
        AList (fun _ : GoString => ClosureEntry (NodeRegistry Node) Node)).lookup k
          = some (closureOf e) := by
      rw [closureIndex_lookup, h]; rfl
    rw [NewNodeOfKindIn_of_hit tbl closureIndex k r _ h1]
    simp [NewNodeOfKind, h, closureOf]

/-! ## Claim C16 -/

/-- Claim C16, amended. `GetRegisteredNodeKindNames`, `Kind` and a failing `NewNodeOfKind`
leave the program state, and with it the registry, unchanged, and return the same result
when repeated.  A successful `NewNodeOfKind` leaves the state that the initializer of the
entry leaves: when that initializer does not change the index, the index afterwards has
the same keys mapped to the same entries, with the same listing and the same `Kind`.  With
initializers that touch no state the three lookups leave the registry unchanged. -/
theorem C16_lookups_frame {σ : Type} (tbl : Nat → Bool)
    (index : σ → AList (fun _ : GoString => ClosureEntry σ Node)) (s : σ)
    (k miss hit : GoString) (e : ClosureEntry σ Node)
    (hmiss : (index s).lookup miss = none) (hhit : (index s).lookup hit = some e)
    (hframe : index (e.initFunction s).1 = index s) :
    ((GetRegisteredNodeKindNamesIn index s).1 = s ∧
      (GetRegisteredNodeKindNamesIn index (GetRegisteredNodeKindNamesIn index s).1).2
        = (GetRegisteredNodeKindNamesIn index s).2) ∧
    ((KindIn index k s).1 = s ∧
      (KindIn index k (KindIn index k s).1).2 = (KindIn index k s).2) ∧
    ((NewNodeOfKindIn tbl index miss s).1 = s ∧
      (NewNodeOfKindIn tbl index miss s).2.2 ≠ none ∧
      (NewNodeOfKindIn tbl index miss (NewNodeOfKindIn tbl index miss s).1).2
        = (NewNodeOfKindIn tbl index miss s).2) ∧
    (NewNodeOfKindIn tbl index hit s = ((e.initFunction s).1, ((e.initFunction s).2, none)) ∧
      index (NewNodeOfKindIn tbl index hit s).1 = index s ∧
      (GetRegisteredNodeKindNamesIn index (NewNodeOfKindIn tbl index hit s).1).2
        = (GetRegisteredNodeKindNamesIn index s).2 ∧
      (∀ k2, (KindIn index k2 (NewNodeOfKindIn tbl index hit s).1).2
        = (KindIn index k2 s).2)) ∧
    (∀ (r : NodeRegistry Node) (k2 : GoString),
      NewNodeOfKindIn tbl closureIndex k2 r = (r, NewNodeOfKind tbl r k2) ∧
      GetRegisteredNodeKindNamesIn closureIndex r = (r, GetRegisteredNodeKindNames r) ∧
      KindIn closureIndex k2 r = (r, (Kind r k2).map closureOf)) := by
  have hm := NewNodeOfKindIn_of_miss tbl index miss s hmiss
  have hh := NewNodeOfKindIn_of_hit tbl index hit s e hhit
  refine ⟨⟨rfl, rfl⟩, ⟨rfl, rfl⟩, ?_, ?_, ?_⟩
  · rw [hm]
    exact ⟨rfl, by simp, by rw [hm]⟩
  · rw [hh]
    refine ⟨rfl, hframe, ?_, ?_⟩
    · simp only [GetRegisteredNodeKindNamesIn, hframe]
    · intro k2
      simp only [KindIn, hframe]
  · intro r k2
    refine ⟨NewNodeOfKindIn_closureIndex tbl r k2, ?_, ?_⟩
    · simp only [GetRegisteredNodeKindNamesIn, closureIndex_keys, GetRegisteredNodeKindNames]
    · simp only [KindIn, closureIndex_lookup, Kind]

/-- Claim C16 as stated fails: when the initializer registered under `a` itself registers
`x` on the registry, `NewNodeOfKind a` succeeds and the index afterwards has the key `x`
that it did not have before; the listing changes from `[a]` to `[a, x]`. -/
theorem C16_counterexample :
    (NewNodeOfKindIn exampleTable reentrantIndex (ascii "a") false).2 = (some 1, none) ∧
    (GetRegisteredNodeKindNamesIn reentrantIndex false).2 = [ascii "a"] ∧
    (GetRegisteredNodeKindNamesIn reentrantIndex
      (NewNodeOfKindIn exampleTable reentrantIndex (ascii "a") false).1).2
      = [ascii "a", ascii "x"] ∧
    ascii "x" ∉ (reentrantIndex false).keys ∧
    ascii "x" ∈
      (reentrantIndex (NewNodeOfKindIn exampleTable reentrantIndex (ascii "a") false).1).keys ∧
    (KindIn reentrantIndex (ascii "x") false).2.isNone = true ∧
    (KindIn reentrantIndex (ascii "x")
      (NewNodeOfKindIn exampleTable reentrantIndex (ascii "a") false).1).2.isSome = true := by
  decide

/-- Claim C16, amended, on the example of the counting initializer: `x` misses, `a` hits,
the initializer changes its counter and not the index; the listing stays `[a]` while the
second call of `NewNodeOfKind a` returns another node than the first. -/
theorem C16_witness :
    (countingIndex 0).lookup (ascii "x") = none ∧
    (countingIndex 0).lookup (ascii "a") = some countingEntry ∧
    countingIndex (countingEntry.initFunction 0).1 = countingIndex 0 ∧
    NewNodeOfKindIn exampleTable countingIndex (ascii "a") 0 = (1, (some 0, none)) ∧
    NewNodeOfKindIn exampleTable countingIndex (ascii "a") 1 = (2, (some 1, none)) ∧
    (GetRegisteredNodeKindNamesIn countingIndex
      (NewNodeOfKindIn exampleTable countingIndex (ascii "a") 0).1).2
      = (GetRegisteredNodeKindNamesIn countingIndex 0).2 :=
  ⟨rfl, rfl, rfl, by decide, by decide,
    (C16_lookups_frame exampleTable countingIndex 0 (ascii "a") (ascii "x") (ascii "a")
      countingEntry rfl rfl rfl).2.2.2.1.2.2.1⟩

end Nodes
